import Mathlib

/-!
Shallow embedding of vue-importer (src/vue-importer.py): the config loader,
the circuit resolver, the usage cache and the gauge value providers.

Modelling conventions:
- Python float values are modelled as rationals.
- Python datetime values are modelled as integer second counts; a timedelta of
  n seconds is the integer n.
- Python dicts are modelled as association lists with insert-or-replace
  semantics (insertion keeps the position of an existing key, as CPython does).
- Python exceptions are modelled with Except; functions that cannot raise are
  total.
- The remote API client (PyEmVue) is an external collaborator: its answers are
  passed in as parameters (a device enumeration function, a usage query
  result).
-/

namespace VueImporter

/-- Decidable equality of Except results, used to evaluate the model on
concrete inputs. -/
instance {ε α : Type} [DecidableEq ε] [DecidableEq α] :
    DecidableEq (Except ε α)
  | .ok a, .ok b =>
      if h : a = b then .isTrue (by rw [h])
      else .isFalse (by intro hx; cases hx; exact h rfl)
  | .ok _, .error _ => .isFalse (by intro hx; cases hx)
  | .error _, .ok _ => .isFalse (by intro hx; cases hx)
  | .error e, .error f =>
      if h : e = f then .isTrue (by rw [h])
      else .isFalse (by intro hx; cases hx; exact h rfl)

/-! ### Usage cache (Emporia.get_usage_for_circuits_with_cache, lines 342-353) -/

/-- Model of the CachedUsage attrs class: a usage snapshot (circuit name to
watts) plus the time it was fetched, in seconds. -/
structure CachedUsage where
  circuit_usage : List (String × ℚ)
  fetch_time : ℤ
deriving DecidableEq, Repr

/-- The fixed freshness window: timedelta(seconds=15). -/
def cache_ttl : ℤ := 15

/-- The refresh path of get_usage_for_circuits_with_cache: perform the remote
query (its outcome is the remote parameter), and on success store a new
snapshot stamped with the clock value read after the query returns
(fetch_now).  The third component counts calls of get_usage_for_circuits,
i.e. remote refresh attempts.  On failure the exception propagates and the
cached field is not assigned. -/
def refresh_cache (fetch_now : ℤ) (remote : Except String (List (String × ℚ)))
    (cached : Option CachedUsage) :
    Except String (List (String × ℚ)) × Option CachedUsage × Nat :=
  match remote with
  | .ok circuit_usage =>
      (.ok circuit_usage, some ⟨circuit_usage, fetch_now⟩, 1)
  | .error e => (.error e, cached, 1)

/-- Model of Emporia.get_usage_for_circuits_with_cache.  The mutex is not
modelled (calls are serialized by construction); now is the clock read at
entry, fetch_now the clock read after a refresh.  Python's truthiness test
"if self.cached_usage and now - self.cached_usage.fetch_time < cache_ttl"
returns the cached snapshot unchanged with no remote call; otherwise it
refreshes. -/
def get_usage_for_circuits_with_cache (now fetch_now : ℤ)
    (remote : Except String (List (String × ℚ))) (cached : Option CachedUsage) :
    Except String (List (String × ℚ)) × Option CachedUsage × Nat :=
  match cached with
  | some cu =>
      if now - cu.fetch_time < cache_ttl then (.ok cu.circuit_usage, some cu, 0)
      else refresh_cache fetch_now remote cached
  | none => refresh_cache fetch_now remote cached

/-- Runs a sequence of cache reads (each with entry clock, post-refresh clock
and remote outcome) against an initial cache state, accumulating the number of
remote refresh calls. -/
def run_reads (reads : List (ℤ × ℤ × Except String (List (String × ℚ))))
    (cached : Option CachedUsage) : Option CachedUsage × Nat :=
  reads.foldl
    (fun st r =>
      let out := get_usage_for_circuits_with_cache r.1 r.2.1 r.2.2 st.1
      (out.2.1, st.2 + out.2.2))
    (cached, 0)

/-! ### Circuits (the Circuit attrs class, lines 143-155)

Circuit.child_circuits is a dict keyed by the child's name; it is modelled as
a list of circuits (the keys equal the stored circuits' names throughout the
program).  The parent_circuit back-reference, which in Python is the parent
Circuit object itself (creating a reference cycle), is modelled by the
parent's name. -/

/-- Model of the Circuit attrs class. -/
inductive Circuit : Type where
  | mk : (name : String) → (account_name : String) → (device_gid : String) →
      (channel_num : String) → (is_outlet : Bool) →
      (child_circuits : List Circuit) → (location : Option String) →
      (parent_circuit : Option String) → (display_name : Option String) →
      (label : Option String) → (remainder_name : Option String) → Circuit
deriving Repr

def Circuit.name : Circuit → String
  | .mk n _ _ _ _ _ _ _ _ _ _ => n

def Circuit.account_name : Circuit → String
  | .mk _ an _ _ _ _ _ _ _ _ _ => an

def Circuit.device_gid : Circuit → String
  | .mk _ _ gid _ _ _ _ _ _ _ _ => gid

def Circuit.channel_num : Circuit → String
  | .mk _ _ _ ch _ _ _ _ _ _ _ => ch

def Circuit.is_outlet : Circuit → Bool
  | .mk _ _ _ _ o _ _ _ _ _ _ => o

def Circuit.child_circuits : Circuit → List Circuit
  | .mk _ _ _ _ _ kids _ _ _ _ _ => kids

def Circuit.location : Circuit → Option String
  | .mk _ _ _ _ _ _ loc _ _ _ _ => loc

def Circuit.parent_circuit : Circuit → Option String
  | .mk _ _ _ _ _ _ _ par _ _ _ => par

def Circuit.display_name : Circuit → Option String
  | .mk _ _ _ _ _ _ _ _ dn _ _ => dn

def Circuit.label : Circuit → Option String
  | .mk _ _ _ _ _ _ _ _ _ lb _ => lb

def Circuit.remainder_name : Circuit → Option String
  | .mk _ _ _ _ _ _ _ _ _ _ rn => rn

/-! ### Dict helpers (Python dict semantics over association lists) -/

/-- Python dict lookup d.get(k) over a usage map. -/
def dict_get (m : List (String × ℚ)) (k : String) : Option ℚ :=
  (m.find? (fun kv => kv.fst == k)).map Prod.snd

/-- Python dict assignment d[k] = v: replace in place if the key exists
(keeping its position), append otherwise. -/
def upsert_usage (m : List (String × ℚ)) (k : String) (v : ℚ) :
    List (String × ℚ) :=
  if m.any (fun kv => kv.fst == k) then
    m.map (fun kv => if kv.fst == k then (k, v) else kv)
  else m ++ [(k, v)]

/-! ### Usage query and unit conversion (Emporia.get_usage_for_circuits,
lines 306-340) -/

/-- One channel entry of the remote usage response: its channel number and the
reported usage sample (kWh over the one-second query window), None when the
hardware reports no usage. -/
structure UsageChannel where
  channel_num : String
  usage : Option ℚ
deriving Repr

/-- Lookup in the circuits_by_device index, self.circuits_by_device.get((gid,
channel_num)). -/
def circuits_by_device_get (idx : List ((String × String) × Circuit))
    (k : String × String) : Option Circuit :=
  (idx.find? (fun kv => kv.fst.1 == k.1 && kv.fst.2 == k.2)).map Prod.snd

/-- The body of the inner response-join loop of get_usage_for_circuits: look
the channel up in circuits_by_device; entries with no matching circuit are
ignored.  Python's truthiness test "if channel.usage:" treats both None and a
zero sample as no usage, storing 0; otherwise it stores
channel.usage * 3600 * 1000. -/
def process_usage_channel (circuits_by_device : List ((String × String) × Circuit))
    (circuit_usage : List (String × ℚ)) (device_gid : String)
    (channel : UsageChannel) : List (String × ℚ) :=
  match circuits_by_device_get circuits_by_device (device_gid, channel.channel_num) with
  | some circuit =>
      match channel.usage with
      | some u =>
          if u = 0 then upsert_usage circuit_usage circuit.name 0
          else upsert_usage circuit_usage circuit.name (u * 3600 * 1000)
      | none => upsert_usage circuit_usage circuit.name 0
  | none => circuit_usage

/-- The join phase of Emporia.get_usage_for_circuits over an already-fetched
usage response (device_gid to channel list), folding every channel of every
device through process_usage_channel. -/
def get_usage_for_circuits (circuits_by_device : List ((String × String) × Circuit))
    (device_usage_dict : List (String × List UsageChannel)) : List (String × ℚ) :=
  device_usage_dict.foldl
    (fun acc du => du.2.foldl
      (fun acc2 channel => process_usage_channel circuits_by_device acc2 du.1 channel)
      acc)
    []

/-! ### Gauge value providers (Emporia._build_gauge, lines 359-419) -/

/-- The get_usage closure of _build_gauge, evaluated against the usage map
obtained from one shared cache read: "assert circuit.name in usage" raises
when the value is absent, else the circuit's watts are returned. -/
def gauge_value (usage : List (String × ℚ)) (circuit : Circuit) :
    Except String ℚ :=
  match dict_get usage circuit.name with
  | some v => .ok v
  | none => .error ("No usage for " ++ circuit.name)

/-- The subtraction loop of the get_remainder closure: usage_amount -=
usage[child.name] for every child; a missing key raises (KeyError). -/
def remainder_loop (usage : List (String × ℚ)) :
    List Circuit → ℚ → Except String ℚ
  | [], usage_amount => .ok usage_amount
  | child :: rest, usage_amount =>
      match dict_get usage child.name with
      | some w => remainder_loop usage rest (usage_amount - w)
      | none => .error ("KeyError: " ++ child.name)

/-- The arithmetic of the get_remainder closure over the usage map obtained
from one cache read: usage[circuit.name] minus the children's usages. -/
def remainder_from_usage (usage : List (String × ℚ)) (circuit : Circuit) :
    Except String ℚ :=
  match dict_get usage circuit.name with
  | some v => remainder_loop usage circuit.child_circuits v
  | none => .error ("KeyError: " ++ circuit.name)

/-- One registered gauge: the circuit label, the circuit_type label tag, and
the value provider evaluated against the usage map of one shared cache
read. -/
structure GaugeReg where
  circuit_label : Option String
  circuit_type : String
  contains_circuits : Bool
  provider : List (String × ℚ) → Except String ℚ

/-- The remainder gauge's circuit label: circuit.remainder_name or
"(display_name) (remainder)", where Python's "or" falls through on None and
on the empty string. -/
def remainder_label (circuit : Circuit) : String :=
  let fallback := (circuit.display_name.getD circuit.name) ++ " (remainder)"
  match circuit.remainder_name with
  | some r => if r = "" then fallback else r
  | none => fallback

/-- Model of Emporia._build_gauge: always registers the circuit's own gauge;
when the circuit contains children (contains_circuits =
bool(len(circuit.child_circuits))) additionally registers the remainder gauge
with circuit_type "remainder". -/
def build_gauge (circuit : Circuit) : List GaugeReg :=
  let circuit_type := if circuit.is_outlet then "outlet" else "circuit"
  let contains_circuits := !circuit.child_circuits.isEmpty
  let main : GaugeReg :=
    ⟨circuit.display_name, circuit_type, contains_circuits,
     fun usage => gauge_value usage circuit⟩
  if contains_circuits then
    [main,
     ⟨some (remainder_label circuit), "remainder", false,
      fun usage => remainder_from_usage usage circuit⟩]
  else [main]

/-- The stateful get_remainder closure as the code runs it: it first calls
get_usage_for_circuits_with_cache itself, then performs the remainder
arithmetic on the returned usage map.  Returns the value outcome, the cache
state after the call, and the number of remote refresh calls performed. -/
def get_remainder (now fetch_now : ℤ)
    (remote : Except String (List (String × ℚ))) (cached : Option CachedUsage)
    (circuit : Circuit) :
    Except String ℚ × Option CachedUsage × Nat :=
  match get_usage_for_circuits_with_cache now fetch_now remote cached with
  | (.ok usage, st, n) => (remainder_from_usage usage circuit, st, n)
  | (.error e, st, n) => (.error e, st, n)

/-! ### Config loader (Config.__init__ and
Config._read_circuits_from_config_dict, lines 14-116)

The raw YAML value under a circuits or outlets key is either a bare list of
names or a mapping of name to attributes; an attribute mapping may itself
hold nested circuits and outlets declarations. -/

mutual
/-- A raw circuits/outlets declaration from the YAML document. -/
inductive CircuitsDecl : Type where
  | bare_list : List String → CircuitsDecl
  | mapping : List (String × CircuitEntry) → CircuitsDecl

/-- The raw attribute mapping of one declared circuit. -/
inductive CircuitEntry : Type where
  | mk : (display_name : Option String) → (label : Option String) →
      (remainder : Option String) → (circuits : Option CircuitsDecl) →
      (outlets : Option CircuitsDecl) → CircuitEntry
end

/-- Model of the Config.ConfigCircuit attrs class; child_circuits is a dict
keyed by the child's name, modelled as a list whose entries carry their own
names. -/
inductive ConfigCircuit : Type where
  | mk : (name : String) → (display_name : String) → (label : Option String) →
      (is_outlet : Bool) → (remainder_name : Option String) →
      (child_circuits : List ConfigCircuit) → ConfigCircuit

def ConfigCircuit.name : ConfigCircuit → String
  | .mk n _ _ _ _ _ => n

def ConfigCircuit.display_name : ConfigCircuit → String
  | .mk _ dn _ _ _ _ => dn

def ConfigCircuit.label : ConfigCircuit → Option String
  | .mk _ _ lb _ _ _ => lb

def ConfigCircuit.is_outlet : ConfigCircuit → Bool
  | .mk _ _ _ o _ _ => o

def ConfigCircuit.remainder_name : ConfigCircuit → Option String
  | .mk _ _ _ _ rn _ => rn

def ConfigCircuit.child_circuits : ConfigCircuit → List ConfigCircuit
  | .mk _ _ _ _ _ kids => kids

/-- Model of the Config.ConfigLocation attrs class. -/
structure ConfigLocation where
  name : String
  circuits : List ConfigCircuit

/-- Python dict assignment circuits[name] = c into a ConfigCircuit dict. -/
def upsert_config_circuit (l : List ConfigCircuit) (c : ConfigCircuit) :
    List ConfigCircuit :=
  if l.any (fun c2 => c2.name == c.name) then
    l.map (fun c2 => if c2.name == c.name then c else c2)
  else l ++ [c]

/-- The child declaration sections of one circuit entry, in the order the
code reads them: the circuits key with are_outlets=False, then the outlets
key with are_outlets=True. -/
def child_sections : CircuitEntry → List (CircuitsDecl × Bool)
  | .mk _ _ _ mc mo =>
      (match mc with | some d => [(d, false)] | none => []) ++
      (match mo with | some d => [(d, true)] | none => [])

/-- The duplicate-circuit exception message of
_read_circuits_from_config_dict. -/
def dup_circuit_msg (name : String) : String :=
  "Found circuit named " ++ name ++
    " defined multiple times in config - this is not allowed"

/-- The duplicate-location exception message of Config.__init__. -/
def dup_location_msg (name : String) : String :=
  "Found location named " ++ name ++
    " defined multiple times in config - this is not allowed"

/-- Model of Config._read_circuits_from_config_dict, processing a queue of
declaration sections that are merged by dict update into one accumulated
circuits dict (Python merges each recursive call's dict into the caller's
with dict.update, which is the same insertion sequence).  State threaded
through: the accumulated circuits dict and the global all_names set (a list
used only for membership, mirroring the Python set).

Bare-list names build leaf circuits without any duplicate check and without
touching all_names; mapping names are checked against all_names and added to
it, then the entry's nested circuits and outlets sections are read
recursively before the siblings. -/
def read_circuits_from_config_dict :
    List (CircuitsDecl × Bool) → List ConfigCircuit → List String →
    Except String (List ConfigCircuit × List String)
  | [], acc, all_names => .ok (acc, all_names)
  | (.bare_list names, are_outlets) :: rest, acc, all_names =>
      read_circuits_from_config_dict rest
        (names.foldl
          (fun acc2 n =>
            upsert_config_circuit acc2 (.mk n n none are_outlets none []))
          acc)
        all_names
  | (.mapping [], _) :: rest, acc, all_names =>
      read_circuits_from_config_dict rest acc all_names
  | (.mapping ((circuit_name, entry) :: more), are_outlets) :: rest, acc,
      all_names =>
      if circuit_name ∈ all_names then .error (dup_circuit_msg circuit_name)
      else
        (read_circuits_from_config_dict (child_sections entry) []
            (all_names ++ [circuit_name])).bind
          (fun pr =>
            read_circuits_from_config_dict
              ((.mapping more, are_outlets) :: rest)
              (upsert_config_circuit acc
                (.mk circuit_name
                  (match entry with
                    | .mk (some dn) _ _ _ _ => dn
                    | .mk none _ _ _ _ => circuit_name)
                  (match entry with | .mk _ lb _ _ _ => lb) are_outlets
                  (match entry with | .mk _ _ rm _ _ => rm) pr.1))
              pr.2)
termination_by secs _ _ => sizeOf secs
decreasing_by
  · simp_arith
  · simp_arith
  · have h : sizeOf (child_sections entry) ≤ 4 + sizeOf entry := by
      cases entry with
      | mk dn lb rm mc mo =>
          cases mc <;> cases mo <;> simp [child_sections] <;> omega
    simp_arith
    omega
  · simp_arith

/-- The raw value of one entry of the top-level locations mapping. -/
structure LocationEntry where
  circuits : Option CircuitsDecl
  outlets : Option CircuitsDecl

/-- The declaration sections of one location, in the order Config.__init__
reads them. -/
def location_sections (le : LocationEntry) : List (CircuitsDecl × Bool) :=
  (match le.circuits with | some d => [(d, false)] | none => []) ++
  (match le.outlets with | some d => [(d, true)] | none => [])

/-- The location loop of Config.__init__: check each location name against
all_names, add it, read the location's circuits and outlets sections, and
record the resulting ConfigLocation. -/
def config_init_locations :
    List (String × LocationEntry) → List ConfigLocation → List String →
    Except String (List ConfigLocation × List String)
  | [], locs, all_names => .ok (locs, all_names)
  | (location_name, le) :: rest, locs, all_names =>
      if location_name ∈ all_names then .error (dup_location_msg location_name)
      else
        match read_circuits_from_config_dict (location_sections le) []
            (all_names ++ [location_name]) with
        | .error e => .error e
        | .ok (circuits_dict, all_names2) =>
            config_init_locations rest
              (locs ++ [⟨location_name, circuits_dict⟩]) all_names2

/-- Model of Config.__init__ over the parsed YAML locations mapping: the
produced locations together with the final all_names set. -/
def config_load (locations : List (String × LocationEntry)) :
    Except String (List ConfigLocation × List String) :=
  config_init_locations locations [] []

/-- The names the loader actually subjects to the duplicate check, in the
order it sees them: every mapping-declared circuit name (bare-list names are
never checked). -/
def checked_names : List (CircuitsDecl × Bool) → List String
  | [] => []
  | (.bare_list _, _) :: rest => checked_names rest
  | (.mapping [], _) :: rest => checked_names rest
  | (.mapping ((circuit_name, entry) :: more), are_outlets) :: rest =>
      circuit_name :: (checked_names (child_sections entry) ++
        checked_names ((.mapping more, are_outlets) :: rest))
termination_by secs => sizeOf secs
decreasing_by
  · simp_arith
  · simp_arith
  · have h : sizeOf (child_sections entry) ≤ 4 + sizeOf entry := by
      cases entry with
      | mk dn lb rm mc mo =>
          cases mc <;> cases mo <;> simp [child_sections] <;> omega
    simp_arith
    omega
  · simp_arith

/-- The checked names of a whole configuration: each location name followed
by the checked names of its sections. -/
def checked_names_config : List (String × LocationEntry) → List String
  | [] => []
  | (location_name, le) :: rest =>
      location_name :: (checked_names (location_sections le) ++
        checked_names_config rest)

/-! ### Circuit resolver (Emporia.do_logins_and_build_circuits and
Emporia._populate_circuits_recursive, lines 193-304) -/

/-- One entry of the accounts mapping of the config: email, password and the
optional default location key. -/
structure AccountEntry where
  email : String
  password : String
  location : Option String

/-- The loaded Config as the resolver consumes it: the locations produced by
the loader plus the raw accounts mapping. -/
structure Config where
  locations : List ConfigLocation
  accounts : List (String × AccountEntry)

/-- Model of the Location attrs class; circuits is a dict keyed by circuit
name, modelled as a list whose entries carry their own names. -/
structure Location where
  name : String
  circuits : List Circuit
deriving Repr

/-- One channel of a discovered device as PyEmVue reports it. -/
structure VueChannel where
  channel_num : String
  name : String

/-- One discovered device as PyEmVue reports it. -/
structure VueDevice where
  device_gid : String
  device_name : String
  outlet : Bool
  channels : List VueChannel

/-- Python dict assignment circuits_to_add[name] = c: replace in place if the
name exists, append otherwise. -/
def upsert_circuit (pool : List Circuit) (c : Circuit) : List Circuit :=
  if pool.any (fun c2 => c2.name == c.name) then
    pool.map (fun c2 => if c2.name == c.name then c else c2)
  else pool ++ [c]

/-- The circuits one discovered device contributes, in insertion order: a
device with exactly one channel becomes one circuit named after the device
carrying its outlet flag; any other device becomes one non-outlet circuit per
channel. -/
def device_circuits (account_name : String) (device : VueDevice) :
    List Circuit :=
  match device.channels with
  | [channel] =>
      [Circuit.mk device.device_name account_name device.device_gid
        channel.channel_num device.outlet [] none none none none none]
  | _ =>
      device.channels.map (fun channel =>
        Circuit.mk channel.name account_name device.device_gid
          channel.channel_num false [] none none none none none)

/-- The circuits discovered by the device-enumeration loop of
do_logins_and_build_circuits, in insertion order over accounts and their
devices. -/
def discovered_circuits (accounts : List (String × AccountEntry))
    (get_devices : String → List VueDevice) : List Circuit :=
  accounts.flatMap (fun a => (get_devices a.fst).flatMap (device_circuits a.fst))

/-- The circuits_to_add dict of do_logins_and_build_circuits: every discovered
circuit inserted under its name (a later circuit with an already-present name
replaces the earlier one, as dict assignment does). -/
def circuits_to_add_init (accounts : List (String × AccountEntry))
    (get_devices : String → List VueDevice) : List Circuit :=
  (discovered_circuits accounts get_devices).foldl upsert_circuit []

/-- The field updates _populate_circuits_recursive applies to a matched
circuit: display_name (config display_name or config name, where Python's
"or" falls through on the empty string), label, remainder_name, location and
parent, together with the children populated below it. -/
def Circuit.bind_config : Circuit → ConfigCircuit → String → Option String →
    List Circuit → Circuit
  | .mk n an gid ch o _ _ _ _ _ _, cc, loc, parent, children =>
      .mk n an gid ch o children (some loc) parent
        (some (if cc.display_name = "" then cc.name else cc.display_name))
        cc.label cc.remainder_name

/-- Model of Emporia._populate_circuits_recursive.  Walks the config circuits
in order; a config circuit whose name is in circuits_to_add is bound into the
container (with its fields copied from the config node), removed from
circuits_to_add, and its config children are populated below it with the
remaining pool; a config circuit with no matching discovered circuit is
skipped with a non-fatal warning (prints are not modelled).  Returns the
container contents and the remaining circuits_to_add pool. -/
def populate_circuits_recursive :
    List ConfigCircuit → List Circuit → String → Option String →
    List Circuit × List Circuit
  | [], pool, _, _ => ([], pool)
  | .mk n dn lb o rn kids :: rest, pool, loc, parent =>
      match pool.find? (fun c => c.name == n) with
      | some c =>
          (c.bind_config (.mk n dn lb o rn kids) loc parent
              (populate_circuits_recursive kids
                (pool.filter (fun c2 => !(c2.name == n))) loc (some n)).1
            :: (populate_circuits_recursive rest
                  (populate_circuits_recursive kids
                    (pool.filter (fun c2 => !(c2.name == n))) loc
                    (some n)).2 loc parent).1,
           (populate_circuits_recursive rest
              (populate_circuits_recursive kids
                (pool.filter (fun c2 => !(c2.name == n))) loc
                (some n)).2 loc parent).2)
      | none => populate_circuits_recursive rest pool loc parent

/-- The location loop of do_logins_and_build_circuits: each config location's
circuits dict is filled by _populate_circuits_recursive, threading the shared
circuits_to_add pool through the locations in order. -/
def populate_all :
    List ConfigLocation → List Circuit → List Location × List Circuit
  | [], pool => ([], pool)
  | cl :: rest, pool =>
      (⟨cl.name,
          (populate_circuits_recursive cl.circuits pool cl.name none).1⟩
        :: (populate_all rest
            (populate_circuits_recursive cl.circuits pool cl.name none).2).1,
       (populate_all rest
          (populate_circuits_recursive cl.circuits pool cl.name none).2).2)

/-- The default location of an unconfigured circuit:
self.config.accounts[account_name].get("location", account_name).  The
account name always comes from the accounts mapping itself, so the missing-
account case is unreachable in the program; it falls back to the account
name. -/
def default_location_name (accounts : List (String × AccountEntry))
    (account_name : String) : String :=
  match accounts.find? (fun a => a.fst == account_name) with
  | some a => a.snd.location.getD account_name
  | none => account_name

/-- Sets circuit.location (assigned right after the circuit is inserted into
its default location; the inserted object and the assigned object are the
same in Python). -/
def Circuit.set_location : Circuit → String → Circuit
  | .mk n an gid ch o kids _ par dn lb rn, loc =>
      .mk n an gid ch o kids (some loc) par dn lb rn

/-- One iteration of the default-location loop: create the location if it is
not present yet, then insert the circuit top-level under its name. -/
def add_circuit_to_location (locs : List Location) (loc_name : String)
    (c : Circuit) : List Location :=
  (if locs.any (fun l => l.name == loc_name) then locs
    else locs ++ [⟨loc_name, []⟩]).map
    (fun l =>
      if l.name == loc_name then ⟨l.name, upsert_circuit l.circuits c⟩ else l)

/-- The trailing loop of do_logins_and_build_circuits: every circuit still in
circuits_to_add is placed at the top level of its account's default location,
and its location field is set. -/
def place_default_circuits (accounts : List (String × AccountEntry))
    (remaining : List Circuit) (locs : List Location) : List Location :=
  remaining.foldl
    (fun locs2 c =>
      let loc := default_location_name accounts c.account_name
      add_circuit_to_location locs2 loc (c.set_location loc))
    locs

/-- The mutable state of the Emporia class that
do_logins_and_build_circuits touches. -/
structure Emporia where
  accounts : Option (List String)
  locations : Option (List Location)
  circuits_by_name : List (String × Circuit)
  circuits_by_device : List ((String × String) × Circuit)

/-- Python's truthiness of Optional[Dict]: present and non-empty. -/
def accounts_truthy : Option (List String) → Bool
  | some (_ :: _) => true
  | _ => false

/-- Model of Emporia.do_logins_and_build_circuits: if self.accounts is truthy
the call returns immediately with the state untouched; otherwise it logs in
every configured account (authentication is assumed to succeed; its failures
abort the whole program and are outside this embedding), enumerates devices
into circuits_to_add, builds the two lookup indices, populates every config
location from the pool, and places the remaining circuits in default
locations. -/
def do_logins_and_build_circuits (config : Config)
    (get_devices : String → List VueDevice) (st : Emporia) : Emporia :=
  if accounts_truthy st.accounts then st
  else
    let pool := circuits_to_add_init config.accounts get_devices
    let by_name := pool.foldl
      (fun m c => if m.any (fun kv => kv.fst == c.name) then
          m.map (fun kv => if kv.fst == c.name then (c.name, c) else kv)
        else m ++ [(c.name, c)]) []
    let by_device := pool.foldl
      (fun m c =>
        if m.any (fun kv => kv.fst.1 == c.device_gid && kv.fst.2 == c.channel_num) then
          m.map (fun kv =>
            if kv.fst.1 == c.device_gid && kv.fst.2 == c.channel_num then
              ((c.device_gid, c.channel_num), c)
            else kv)
        else m ++ [((c.device_gid, c.channel_num), c)]) []
    let step := populate_all config.locations pool
    let final_locations := place_default_circuits config.accounts step.2 step.1
    { accounts := some (config.accounts.map Prod.fst)
      locations := some final_locations
      circuits_by_name := by_name
      circuits_by_device := by_device }

/-- The number of positions at which a circuit named m occurs anywhere in a
forest of circuits (top-level entries and nested children). -/
def count_name_forest : List Circuit → String → Nat
  | [], _ => 0
  | .mk n _ _ _ _ kids _ _ _ _ _ :: rest, m =>
      (if n = m then 1 else 0) + count_name_forest kids m +
        count_name_forest rest m

/-- The number of positions at which a circuit named m occurs anywhere in the
final Location structure. -/
def count_name_locations (locs : List Location) (m : String) : Nat :=
  (locs.map (fun l => count_name_forest l.circuits m)).sum

/-- The number of positions at which a circuit with the hardware join key
(device_gid, channel_num) occurs anywhere in a forest of circuits. -/
def count_key_forest : List Circuit → String × String → Nat
  | [], _ => 0
  | .mk _ _ gid ch _ kids _ _ _ _ _ :: rest, k =>
      (if gid = k.1 ∧ ch = k.2 then 1 else 0) + count_key_forest kids k +
        count_key_forest rest k

/-- The number of positions at which the hardware join key occurs anywhere in
the final Location structure. -/
def count_key_locations (locs : List Location) (k : String × String) : Nat :=
  (locs.map (fun l => count_key_forest l.circuits k)).sum

/-- The names of the discovered circuits, one per discovered channel (one per
device for single-channel devices). -/
def discovered_names (accounts : List (String × AccountEntry))
    (get_devices : String → List VueDevice) : List String :=
  (discovered_circuits accounts get_devices).map Circuit.name

/-- The locations the resolver produced, empty when resolution has not run. -/
def Emporia.location_list (st : Emporia) : List Location :=
  st.locations.getD []

/-! ## Theorems -/

/-! ### Helper lemmas on the dict model -/

theorem find?_map_replace (k : String) (v : ℚ) :
    ∀ m : List (String × ℚ), m.any (fun kv => kv.fst == k) = true →
      (m.map (fun kv => if kv.fst == k then (k, v) else kv)).find?
        (fun kv => kv.fst == k) = some (k, v) := by
  intro m
  induction m with
  | nil => intro h; simp at h
  | cons kv rest ih =>
      intro h
      cases hk : (kv.fst == k) with
      | true =>
          rw [List.map_cons, List.find?_cons, if_pos hk]
          have : ((k, v).fst == k) = true := by simp
          rw [this]
      | false =>
          have h' : rest.any (fun kv => kv.fst == k) = true := by
            simpa [List.any_cons, hk] using h
          rw [List.map_cons, List.find?_cons,
            if_neg (by rw [hk]; exact Bool.false_ne_true), hk]
          exact ih h'

theorem find?_append_new (k : String) (v : ℚ) :
    ∀ m : List (String × ℚ), m.any (fun kv => kv.fst == k) = false →
      (m ++ [(k, v)]).find? (fun kv => kv.fst == k) = some (k, v) := by
  intro m
  induction m with
  | nil => intro _; simp [List.find?]
  | cons kv rest ih =>
      intro h
      simp only [List.any_cons, Bool.or_eq_false_iff] at h
      simp only [List.cons_append, List.find?_cons, h.1]
      exact ih h.2

/-- Lookup after dict assignment: d[k] = v makes d.get(k) return v. -/
theorem dict_get_upsert (m : List (String × ℚ)) (k : String) (v : ℚ) :
    dict_get (upsert_usage m k v) k = some v := by
  unfold upsert_usage dict_get
  cases hb : m.any (fun kv => kv.fst == k) with
  | true => rw [if_pos rfl, find?_map_replace k v m hb]; rfl
  | false =>
      rw [if_neg Bool.false_ne_true, find?_append_new k v m hb]
      rfl

/-! ### C2: cache freshness -/

/-- C2: a cache read whose entry time is less than 15 seconds past the cached
snapshot's fetch_time returns that snapshot unchanged with no remote refresh
call; a read with no snapshot or with a snapshot aged 15 seconds or more
performs exactly one refresh, replaces the snapshot and returns the new one;
and two reads issued inside one freshness window perform exactly one remote
refresh call in total. -/
theorem cached_getter_freshness (now fetch_now : ℤ)
    (remote : Except String (List (String × ℚ))) (cached : Option CachedUsage) :
    (∀ cu, cached = some cu → now - cu.fetch_time < 15 →
      get_usage_for_circuits_with_cache now fetch_now remote cached
        = (.ok cu.circuit_usage, some cu, 0)) ∧
    (∀ u, remote = .ok u →
      (cached = none ∨ ∃ cu, cached = some cu ∧ 15 ≤ now - cu.fetch_time) →
      get_usage_for_circuits_with_cache now fetch_now remote cached
        = (.ok u, some ⟨u, fetch_now⟩, 1)) ∧
    (∀ (t0 f0 t1 f1 : ℤ) (r0 : List (String × ℚ))
        (remote1 : Except String (List (String × ℚ))),
      t0 ≤ f0 → f0 ≤ t1 → t1 - t0 < 15 →
      run_reads [(t0, f0, .ok r0), (t1, f1, remote1)] none
        = (some ⟨r0, f0⟩, 1)) := by
  refine ⟨?_, ?_, ?_⟩
  · rintro cu rfl h2
    simp [get_usage_for_circuits_with_cache, cache_ttl, h2]
  · rintro u rfl hc
    rcases hc with rfl | ⟨cu, rfl, h15⟩
    · simp [get_usage_for_circuits_with_cache, refresh_cache]
    · have hred : get_usage_for_circuits_with_cache now fetch_now (.ok u)
          (some cu)
          = if now - cu.fetch_time < cache_ttl
            then (.ok cu.circuit_usage, some cu, 0)
            else refresh_cache fetch_now (.ok u) (some cu) := rfl
      rw [hred, if_neg (by simp only [cache_ttl]; omega)]
      rfl
  · intro t0 f0 t1 f1 r0 remote1 h1 h2 h3
    have hf : t1 - f0 < 15 := by omega
    simp [run_reads, get_usage_for_circuits_with_cache, refresh_cache,
      cache_ttl, hf]

/-- C2 witness: a fresh read (age 10) returns the snapshot with no remote
call even when the remote is down; a stale read (age 20) refreshes; two reads
1 second apart from an empty cache perform exactly one refresh. -/
theorem cached_getter_freshness_witness :
    get_usage_for_circuits_with_cache 10 20 (.error "down")
        (some ⟨[("a", 1)], 0⟩)
      = (.ok [("a", 1)], some ⟨[("a", 1)], 0⟩, 0) ∧
    get_usage_for_circuits_with_cache 20 21 (.ok [("a", 2)])
        (some ⟨[("a", 1)], 0⟩)
      = (.ok [("a", 2)], some ⟨[("a", 2)], 21⟩, 1) ∧
    run_reads [(100, 100, .ok [("a", 3)]), (101, 102, .error "down")] none
      = (some ⟨[("a", 3)], 100⟩, 1) :=
  ⟨(cached_getter_freshness 10 20 (.error "down") (some ⟨[("a", 1)], 0⟩)).1
      ⟨[("a", 1)], 0⟩ rfl (by decide),
   (cached_getter_freshness 20 21 (.ok [("a", 2)]) (some ⟨[("a", 1)], 0⟩)).2.1
      [("a", 2)] rfl (.inr ⟨⟨[("a", 1)], 0⟩, rfl, by decide⟩),
   (cached_getter_freshness 0 0 (.ok []) none).2.2 100 100 101 102 [("a", 3)]
      (.error "down") (by decide) (by decide) (by decide)⟩

/-! ### C3: refresh failure leaves the snapshot in place -/

/-- C3: when the remote usage query fails during a refresh (no snapshot, or a
snapshot aged 15 seconds or more), the cached snapshot field is returned
exactly as it was and the failure propagates to the caller. -/
theorem refresh_failure_preserves_snapshot (now fetch_now : ℤ)
    (cached : Option CachedUsage) (e : String)
    (hstale : cached = none ∨
      ∃ cu, cached = some cu ∧ 15 ≤ now - cu.fetch_time) :
    get_usage_for_circuits_with_cache now fetch_now (.error e) cached
      = (.error e, cached, 1) := by
  rcases hstale with rfl | ⟨cu, rfl, h15⟩
  · simp [get_usage_for_circuits_with_cache, refresh_cache]
  · have hred : get_usage_for_circuits_with_cache now fetch_now (.error e)
        (some cu)
        = if now - cu.fetch_time < cache_ttl
          then (.ok cu.circuit_usage, some cu, 0)
          else refresh_cache fetch_now (.error e) (some cu) := rfl
    rw [hred, if_neg (by simp only [cache_ttl]; omega)]
    rfl

/-- C3 witness: a failing refresh over a stale snapshot leaves that snapshot
in place and propagates the error; over an empty cache the error also
propagates. -/
theorem refresh_failure_preserves_snapshot_witness :
    get_usage_for_circuits_with_cache 30 31 (.error "down")
        (some ⟨[("a", 1)], 0⟩)
      = (.error "down", some ⟨[("a", 1)], 0⟩, 1) ∧
    get_usage_for_circuits_with_cache 30 31 (.error "down") none
      = (.error "down", none, 1) :=
  ⟨refresh_failure_preserves_snapshot 30 31 (some ⟨[("a", 1)], 0⟩) "down"
      (.inr ⟨⟨[("a", 1)], 0⟩, rfl, by decide⟩),
   refresh_failure_preserves_snapshot 30 31 none "down" (.inl rfl)⟩

/-! ### C4: unit conversion of joined channel samples -/

/-- C4: a channel sample joined to a circuit stores exactly
usage * 3600 * 1000 watts under the circuit's name, and a channel with no
usage value stores 0. -/
theorem channel_sample_watts
    (circuits_by_device : List ((String × String) × Circuit))
    (circuit_usage : List (String × ℚ)) (device_gid : String)
    (channel : UsageChannel) (circuit : Circuit)
    (hfind : circuits_by_device_get circuits_by_device
        (device_gid, channel.channel_num) = some circuit) :
    (∀ u, channel.usage = some u →
      dict_get (process_usage_channel circuits_by_device circuit_usage
          device_gid channel) circuit.name
        = some (u * 3600 * 1000)) ∧
    (channel.usage = none →
      dict_get (process_usage_channel circuits_by_device circuit_usage
          device_gid channel) circuit.name = some 0) := by
  constructor
  · intro u hu
    unfold process_usage_channel
    rw [hfind, hu]
    show dict_get (if u = 0 then upsert_usage circuit_usage circuit.name 0
        else upsert_usage circuit_usage circuit.name (u * 3600 * 1000))
        circuit.name = some (u * 3600 * 1000)
    by_cases h0 : u = 0
    · rw [if_pos h0, dict_get_upsert, h0]
      norm_num
    · rw [if_neg h0, dict_get_upsert]
  · intro hu
    unfold process_usage_channel
    rw [hfind, hu]
    show dict_get (upsert_usage circuit_usage circuit.name 0) circuit.name
        = some 0
    exact dict_get_upsert circuit_usage circuit.name 0

/-- C4 witness: a sample of 0.01 kWh over the one-second window stores
exactly 36000 W, and a None sample stores 0, for a concrete joined
channel. -/
theorem channel_sample_watts_witness :
    dict_get (process_usage_channel
        [(("g1", "1"), Circuit.mk "Freezer" "acct" "g1" "1" true [] none none
          none none none)]
        [] "g1" ⟨"1", some (1 / 100)⟩) "Freezer" = some 36000 ∧
    dict_get (process_usage_channel
        [(("g1", "1"), Circuit.mk "Freezer" "acct" "g1" "1" true [] none none
          none none none)]
        [] "g1" ⟨"1", none⟩) "Freezer" = some 0 := by
  constructor
  · have h := (channel_sample_watts
        [(("g1", "1"), Circuit.mk "Freezer" "acct" "g1" "1" true [] none none
          none none none)]
        [] "g1" ⟨"1", some (1 / 100)⟩
        (Circuit.mk "Freezer" "acct" "g1" "1" true [] none none none none none)
        rfl).1 (1 / 100) rfl
    rw [show (Circuit.mk "Freezer" "acct" "g1" "1" true [] none none none none
        none).name = "Freezer" from rfl] at h
    rw [h]
    norm_num
  · exact (channel_sample_watts
        [(("g1", "1"), Circuit.mk "Freezer" "acct" "g1" "1" true [] none none
          none none none)]
        [] "g1" ⟨"1", none⟩
        (Circuit.mk "Freezer" "acct" "g1" "1" true [] none none none none none)
        rfl).2 rfl

/-! ### C6: idempotency of resolution -/

/-- C6: a call to do_logins_and_build_circuits made while the account
registry is already non-empty returns immediately with the whole state (the
registry, the Location tree and both lookup indices) exactly as it was. -/
theorem resolution_idempotent (config : Config)
    (get_devices : String → List VueDevice) (st : Emporia)
    (h : accounts_truthy st.accounts = true) :
    do_logins_and_build_circuits config get_devices st = st := by
  unfold do_logins_and_build_circuits
  rw [h]
  simp

/-- C6 witness: a second resolution call on a state with one populated
account leaves the state untouched. -/
theorem resolution_idempotent_witness :
    do_logins_and_build_circuits ⟨[], []⟩ (fun _ => [])
        ⟨some ["acct"], some [⟨"Home", []⟩], [], []⟩
      = ⟨some ["acct"], some [⟨"Home", []⟩], [], []⟩ :=
  resolution_idempotent ⟨[], []⟩ (fun _ => [])
    ⟨some ["acct"], some [⟨"Home", []⟩], [], []⟩ rfl

/-! ### C5: remainder provider correctness -/

theorem remainder_loop_sum (usage : List (String × ℚ)) (w : Circuit → ℚ) :
    ∀ (children : List Circuit) (acc : ℚ),
      (∀ ch ∈ children, dict_get usage ch.name = some (w ch)) →
      remainder_loop usage children acc
        = .ok (acc - (children.map w).sum) := by
  intro children
  induction children with
  | nil => intro acc _; simp [remainder_loop]
  | cons ch rest ih =>
      intro acc hch
      have hone : dict_get usage ch.name = some (w ch) :=
        hch ch (List.mem_cons_self ch rest)
      have hrest : ∀ c ∈ rest, dict_get usage c.name = some (w c) :=
        fun c hc => hch c (List.mem_cons_of_mem ch hc)
      unfold remainder_loop
      rw [hone]
      show remainder_loop usage rest (acc - w ch)
          = .ok (acc - ((ch :: rest).map w).sum)
      rw [ih (acc - w ch) hrest]
      congr 1
      simp [List.map_cons, List.sum_cons]
      ring

/-- C5: for a circuit with children, given a usage snapshot holding a value
for the circuit and each of its children, the registered remainder provider
returns the circuit's usage minus the sum of its children's usages; and no
remainder provider is registered for a circuit whose child map is empty. -/
theorem remainder_provider_correct (c : Circuit) (usage : List (String × ℚ))
    (v : ℚ) (w : Circuit → ℚ)
    (hne : c.child_circuits ≠ [])
    (hv : dict_get usage c.name = some v)
    (hch : ∀ ch ∈ c.child_circuits, dict_get usage ch.name = some (w ch)) :
    (∃ r ∈ build_gauge c, r.circuit_type = "remainder" ∧
      r.provider usage = .ok (v - (c.child_circuits.map w).sum)) ∧
    (∀ c2 : Circuit, c2.child_circuits = [] →
      ∀ r ∈ build_gauge c2, r.circuit_type ≠ "remainder") := by
  constructor
  · have hc : (!c.child_circuits.isEmpty) = true := by
      cases hcc : c.child_circuits with
      | nil => exact absurd hcc hne
      | cons a l => simp [List.isEmpty]
    refine ⟨⟨some (remainder_label c), "remainder", false,
      fun usage => remainder_from_usage usage c⟩, ?_, rfl, ?_⟩
    · unfold build_gauge
      rw [hc]
      simp
    · show remainder_from_usage usage c = _
      unfold remainder_from_usage
      rw [hv]
      exact remainder_loop_sum usage w c.child_circuits v hch
  · intro c2 h2 r hr
    unfold build_gauge at hr
    rw [h2] at hr
    simp only [List.isEmpty_nil, Bool.not_true] at hr
    rw [if_neg Bool.false_ne_true] at hr
    simp only [List.mem_singleton] at hr
    subst hr
    by_cases ho : c2.is_outlet = true
    · rw [ho]
      simp
    · simp only [Bool.not_eq_true] at ho
      rw [ho]
      simp

/-- C5 witness: a parent at 100 W with children at 30 W and 20 W yields a
remainder of 50 W, through the registered remainder provider. -/
theorem remainder_provider_correct_witness :
    ∃ r ∈ build_gauge (Circuit.mk "P" "acct" "g1" "1" false
        [Circuit.mk "C1" "acct" "g1" "2" false [] none none none none none,
         Circuit.mk "C2" "acct" "g1" "3" false [] none none none none none]
        none none none none none),
      r.circuit_type = "remainder" ∧
      r.provider [("P", 100), ("C1", 30), ("C2", 20)] = .ok 50 := by
  have h := (remainder_provider_correct
      (Circuit.mk "P" "acct" "g1" "1" false
        [Circuit.mk "C1" "acct" "g1" "2" false [] none none none none none,
         Circuit.mk "C2" "acct" "g1" "3" false [] none none none none none]
        none none none none none)
      [("P", 100), ("C1", 30), ("C2", 20)] 100
      (fun ch => if ch.name = "C1" then 30 else 20)
      (by intro hx; exact List.noConfusion (congrArg id hx)) rfl
      (by
        intro ch hch
        simp only [Circuit.child_circuits] at hch
        rw [List.mem_cons] at hch
        rcases hch with rfl | hch
        · rfl
        · rw [List.mem_cons] at hch
          rcases hch with rfl | hch
          · rfl
          · exact absurd hch (List.not_mem_nil ch))).1
  obtain ⟨r, hr, htype, hval⟩ := h
  refine ⟨r, hr, htype, ?_⟩
  rw [hval]
  congr 1
  simp only [Circuit.child_circuits, List.map_cons, List.map_nil,
    List.sum_cons, List.sum_nil, Circuit.name]
  rw [if_neg (show ¬("C2" = "C1") by decide)]
  norm_num

/-! ### C9: what the remainder provider does to the cache -/

/-- C9 counterexample: invoking the remainder provider on a stale cache does
read the cache and does trigger a remote query: it performs one refresh call
and replaces the cached snapshot with a new one. -/
theorem remainder_touches_cache_counterexample :
    get_remainder 20 21 (.ok [("P", 7), ("C", 2)])
        (some ⟨[("P", 5), ("C", 1)], 0⟩)
        (Circuit.mk "P" "acct" "g1" "1" false
          [Circuit.mk "C" "acct" "g1" "2" false [] none none none none none]
          none none none none none)
      = (.ok 5, some ⟨[("P", 7), ("C", 2)], 21⟩, 1) ∧
    (⟨[("P", 7), ("C", 2)], 21⟩ : CachedUsage) ≠ ⟨[("P", 5), ("C", 1)], 0⟩ := by
  constructor
  · have hc : get_usage_for_circuits_with_cache 20 21
        (.ok [("P", 7), ("C", 2)]) (some ⟨[("P", 5), ("C", 1)], 0⟩)
        = (.ok [("P", 7), ("C", 2)], some ⟨[("P", 7), ("C", 2)], 21⟩, 1) := by
      have hred : get_usage_for_circuits_with_cache 20 21
          (.ok [("P", 7), ("C", 2)]) (some ⟨[("P", 5), ("C", 1)], 0⟩)
          = if (20 : ℤ) - (0 : ℤ) < cache_ttl
            then (.ok [("P", 5), ("C", 1)],
              some (⟨[("P", 5), ("C", 1)], 0⟩ : CachedUsage), 0)
            else refresh_cache 21 (.ok [("P", 7), ("C", 2)])
              (some ⟨[("P", 5), ("C", 1)], 0⟩) := rfl
      rw [hred, if_neg (by decide)]
      rfl
    unfold get_remainder
    rw [hc]
    show (remainder_from_usage [("P", 7), ("C", 2)]
        (Circuit.mk "P" "acct" "g1" "1" false
          [Circuit.mk "C" "acct" "g1" "2" false [] none none none none none]
          none none none none none),
      some (⟨[("P", 7), ("C", 2)], 21⟩ : CachedUsage), 1) = _
    have hrem : remainder_from_usage [("P", 7), ("C", 2)]
        (Circuit.mk "P" "acct" "g1" "1" false
          [Circuit.mk "C" "acct" "g1" "2" false [] none none none none none]
          none none none none none) = .ok 5 := by
      show Except.ok ((7 : ℚ) - 2) = Except.ok 5
      have h72 : (7 : ℚ) - 2 = 5 := by norm_num
      rw [h72]
    rw [hrem]
  · decide

/-- C9 amended: the remainder provider performs exactly one read through the
shared usage cache and only arithmetic beyond it — its cache state and remote
call count are exactly those of that single shared read; in particular, when
the cached snapshot is fresh, invoking it leaves the snapshot unchanged,
triggers no remote query, and computes from the snapshot already paid for.
(When the snapshot is stale, that shared read itself performs the refresh, as
the counterexample shows.) -/
theorem remainder_single_shared_read (now fetch_now : ℤ)
    (remote : Except String (List (String × ℚ))) (cached : Option CachedUsage)
    (circuit : Circuit) :
    ((get_remainder now fetch_now remote cached circuit).2
      = (get_usage_for_circuits_with_cache now fetch_now remote cached).2) ∧
    (∀ cu, cached = some cu → now - cu.fetch_time < 15 →
      get_remainder now fetch_now remote cached circuit
        = (remainder_from_usage cu.circuit_usage circuit, some cu, 0)) := by
  constructor
  · unfold get_remainder
    rcases hres : get_usage_for_circuits_with_cache now fetch_now remote cached
      with ⟨val, st, n⟩
    cases val with
    | ok usage => rfl
    | error e => rfl
  · rintro cu rfl hfresh
    have hread : get_usage_for_circuits_with_cache now fetch_now remote
        (some cu) = (.ok cu.circuit_usage, some cu, 0) := by
      have hred : get_usage_for_circuits_with_cache now fetch_now remote
          (some cu)
          = if now - cu.fetch_time < cache_ttl
            then (.ok cu.circuit_usage, some cu, 0)
            else refresh_cache fetch_now remote (some cu) := rfl
      rw [hred, if_pos (by simp only [cache_ttl]; exact hfresh)]
    unfold get_remainder
    rw [hread]

/-- C9 amended witness: on a fresh snapshot the remainder provider returns
the snapshot-derived value, leaves the snapshot in place and performs zero
remote calls. -/
theorem remainder_single_shared_read_witness :
    get_remainder 10 11 (.error "down") (some ⟨[("P", 5), ("C", 1)], 0⟩)
        (Circuit.mk "P" "acct" "g1" "1" false
          [Circuit.mk "C" "acct" "g1" "2" false [] none none none none none]
          none none none none none)
      = (remainder_from_usage [("P", 5), ("C", 1)]
          (Circuit.mk "P" "acct" "g1" "1" false
            [Circuit.mk "C" "acct" "g1" "2" false [] none none none none none]
            none none none none none),
         some ⟨[("P", 5), ("C", 1)], 0⟩, 0) :=
  (remainder_single_shared_read 10 11 (.error "down")
      (some ⟨[("P", 5), ("C", 1)], 0⟩)
      (Circuit.mk "P" "acct" "g1" "1" false
        [Circuit.mk "C" "acct" "g1" "2" false [] none none none none none]
        none none none none none)).2
    ⟨[("P", 5), ("C", 1)], 0⟩ rfl (by decide)

/-! ### C10: default locations are created on demand -/

theorem add_circuit_new_location (locs : List Location) (ln : String)
    (c : Circuit) (h : ln ∉ locs.map Location.name) :
    add_circuit_to_location locs ln c = locs ++ [⟨ln, [c]⟩] := by
  have hne : ∀ l ∈ locs, ¬((l.name == ln) = true) := by
    intro l hl hln
    rw [beq_iff_eq] at hln
    exact h (hln ▸ List.mem_map_of_mem Location.name hl)
  have hany : locs.any (fun l => l.name == ln) = false := by
    rw [List.any_eq_false]
    intro l hl
    exact hne l hl
  unfold add_circuit_to_location
  rw [hany, if_neg Bool.false_ne_true, List.map_append]
  have hunchanged : locs.map
      (fun l => if l.name == ln then (⟨l.name, upsert_circuit l.circuits c⟩ :
        Location) else l) = locs := by
    have hcongr := List.map_congr_left
      (f := fun l : Location => if l.name == ln then
        (⟨l.name, upsert_circuit l.circuits c⟩ : Location) else l)
      (g := id) (l := locs)
      (fun l hl => if_neg (hne l hl))
    rw [hcongr, List.map_id]
  rw [hunchanged]
  have hlast : [(⟨ln, []⟩ : Location)].map
      (fun l => if l.name == ln then (⟨l.name, upsert_circuit l.circuits c⟩ :
        Location) else l) = [⟨ln, [c]⟩] := by
    simp only [List.map_cons, List.map_nil]
    rw [if_pos (by rw [beq_iff_eq])]
    rfl
  rw [hlast]

/-- C10: when an unmatched circuit's default location name is not among the
locations built so far, the default-placement loop creates a brand-new
Location of that name, places the circuit top-level there, and sets the
circuit's location field — so the final locations map can contain Location
entries that appear nowhere in the configuration. -/
theorem default_location_created_on_demand
    (accounts : List (String × AccountEntry)) (locs : List Location)
    (c : Circuit)
    (h : default_location_name accounts c.account_name ∉
      locs.map Location.name) :
    place_default_circuits accounts [c] locs
      = locs ++ [⟨default_location_name accounts c.account_name,
          [c.set_location (default_location_name accounts c.account_name)]⟩] ∧
    (c.set_location (default_location_name accounts c.account_name)).location
      = some (default_location_name accounts c.account_name) := by
  constructor
  · show add_circuit_to_location locs
        (default_location_name accounts c.account_name)
        (c.set_location (default_location_name accounts c.account_name)) = _
    exact add_circuit_new_location locs _ _ h
  · cases c with
    | mk n an gid ch o kids loc par dn lb rn => rfl

/-- C10 witness: an account with no configured default location places its
unmatched circuit in a freshly created location named after the account,
which does not exist in the configuration-derived location list. -/
theorem default_location_created_on_demand_witness :
    place_default_circuits [("acct", ⟨"e", "p", none⟩)]
        [Circuit.mk "X" "acct" "g1" "1" false [] none none none none none]
        [⟨"Home", []⟩]
      = [⟨"Home", []⟩,
         ⟨"acct", [Circuit.mk "X" "acct" "g1" "1" false [] (some "acct") none
           none none none]⟩] := by
  have h := (default_location_created_on_demand [("acct", ⟨"e", "p", none⟩)]
      [⟨"Home", []⟩]
      (Circuit.mk "X" "acct" "g1" "1" false [] none none none none none)
      (by decide)).1
  rw [h]
  rfl

/-! ### Equation lemmas for the well-founded recursive definitions -/

theorem checked_names_nil : checked_names [] = [] := by
  rw [checked_names.eq_def]

theorem checked_names_bare (ns : List String) (o : Bool)
    (rest : List (CircuitsDecl × Bool)) :
    checked_names ((.bare_list ns, o) :: rest) = checked_names rest := by
  rw [checked_names.eq_def]

theorem checked_names_mapping_nil (o : Bool)
    (rest : List (CircuitsDecl × Bool)) :
    checked_names ((.mapping [], o) :: rest) = checked_names rest := by
  rw [checked_names.eq_def]

theorem checked_names_mapping_cons (cn : String) (e : CircuitEntry)
    (more : List (String × CircuitEntry)) (o : Bool)
    (rest : List (CircuitsDecl × Bool)) :
    checked_names ((.mapping ((cn, e) :: more), o) :: rest)
      = cn :: (checked_names (child_sections e)
          ++ checked_names ((.mapping more, o) :: rest)) := by
  rw [checked_names.eq_def]

theorem read_circuits_nil (acc : List ConfigCircuit) (names : List String) :
    read_circuits_from_config_dict [] acc names = .ok (acc, names) := by
  rw [read_circuits_from_config_dict.eq_def]

theorem read_circuits_bare (ns : List String) (o : Bool)
    (rest : List (CircuitsDecl × Bool)) (acc : List ConfigCircuit)
    (names : List String) :
    read_circuits_from_config_dict ((.bare_list ns, o) :: rest) acc names
      = read_circuits_from_config_dict rest
          (ns.foldl
            (fun acc2 n =>
              upsert_config_circuit acc2 (.mk n n none o none []))
            acc)
          names := by
  rw [read_circuits_from_config_dict.eq_def]

theorem read_circuits_mapping_nil (o : Bool)
    (rest : List (CircuitsDecl × Bool)) (acc : List ConfigCircuit)
    (names : List String) :
    read_circuits_from_config_dict ((.mapping [], o) :: rest) acc names
      = read_circuits_from_config_dict rest acc names := by
  rw [read_circuits_from_config_dict.eq_def]

theorem read_circuits_mapping_cons (cn : String) (e : CircuitEntry)
    (more : List (String × CircuitEntry)) (o : Bool)
    (rest : List (CircuitsDecl × Bool)) (acc : List ConfigCircuit)
    (names : List String) :
    read_circuits_from_config_dict ((.mapping ((cn, e) :: more), o) :: rest)
        acc names
      = if cn ∈ names then .error (dup_circuit_msg cn)
        else
          (read_circuits_from_config_dict (child_sections e) []
              (names ++ [cn])).bind
            (fun pr =>
              read_circuits_from_config_dict ((.mapping more, o) :: rest)
                (upsert_config_circuit acc
                  (.mk cn
                    (match e with
                      | .mk (some dn) _ _ _ _ => dn
                      | .mk none _ _ _ _ => cn)
                    (match e with | .mk _ lb _ _ _ => lb) o
                    (match e with | .mk _ _ rm _ _ => rm) pr.1))
                pr.2) := by
  rw [read_circuits_from_config_dict.eq_def]

theorem count_name_forest_nil (m : String) : count_name_forest [] m = 0 := by
  rw [count_name_forest.eq_def]

theorem count_name_forest_cons (n an gid ch : String) (o : Bool)
    (kids : List Circuit) (loc par dn lb rn : Option String)
    (rest : List Circuit) (m : String) :
    count_name_forest (.mk n an gid ch o kids loc par dn lb rn :: rest) m
      = (if n = m then 1 else 0) + count_name_forest kids m
        + count_name_forest rest m := by
  rw [count_name_forest.eq_def]

theorem count_key_forest_nil (k : String × String) :
    count_key_forest [] k = 0 := by
  rw [count_key_forest.eq_def]

theorem count_key_forest_cons (n an gid ch : String) (o : Bool)
    (kids : List Circuit) (loc par dn lb rn : Option String)
    (rest : List Circuit) (k : String × String) :
    count_key_forest (.mk n an gid ch o kids loc par dn lb rn :: rest) k
      = (if gid = k.1 ∧ ch = k.2 then 1 else 0) + count_key_forest kids k
        + count_key_forest rest k := by
  rw [count_key_forest.eq_def]

theorem populate_nil (pool : List Circuit) (loc : String)
    (parent : Option String) :
    populate_circuits_recursive [] pool loc parent = ([], pool) := by
  rw [populate_circuits_recursive.eq_def]

theorem populate_cons (n dn : String) (lb : Option String) (o : Bool)
    (rn : Option String) (kids : List ConfigCircuit)
    (rest : List ConfigCircuit) (pool : List Circuit) (loc : String)
    (parent : Option String) :
    populate_circuits_recursive (.mk n dn lb o rn kids :: rest) pool loc parent
      = match pool.find? (fun c => c.name == n) with
        | some c =>
            (c.bind_config (.mk n dn lb o rn kids) loc parent
                (populate_circuits_recursive kids
                  (pool.filter (fun c2 => !(c2.name == n))) loc (some n)).1
              :: (populate_circuits_recursive rest
                    (populate_circuits_recursive kids
                      (pool.filter (fun c2 => !(c2.name == n))) loc
                      (some n)).2 loc parent).1,
             (populate_circuits_recursive rest
                (populate_circuits_recursive kids
                  (pool.filter (fun c2 => !(c2.name == n))) loc
                  (some n)).2 loc parent).2)
        | none => populate_circuits_recursive rest pool loc parent := by
  rw [populate_circuits_recursive.eq_def]

/-! ### C1: scope of the duplicate-name check -/

theorem read_circuits_names_accum :
    ∀ (secs : List (CircuitsDecl × Bool)) (acc : List ConfigCircuit)
      (all_names : List String) (cs : List ConfigCircuit)
      (names' : List String),
      read_circuits_from_config_dict secs acc all_names = .ok (cs, names') →
      names' = all_names ++ checked_names secs := by
  intro secs acc all_names
  induction secs, acc, all_names using read_circuits_from_config_dict.induct with
  | case1 acc all_names =>
      intro cs names' h
      rw [read_circuits_nil] at h
      injection h with h1
      injection h1 with hcs hnames
      rw [← hnames, checked_names_nil]
      simp
  | case2 names o rest acc all_names ih1 =>
      intro cs names' h
      rw [read_circuits_bare] at h
      rw [checked_names_bare]
      exact ih1 cs names' h
  | case3 o rest acc all_names ih1 =>
      intro cs names' h
      rw [read_circuits_mapping_nil] at h
      rw [checked_names_mapping_nil]
      exact ih1 cs names' h
  | case4 cn entry more o rest acc all_names hmem =>
      intro cs names' h
      rw [read_circuits_mapping_cons, if_pos hmem] at h
      exact Except.noConfusion h
  | case5 cn entry more o rest acc all_names hmem ih2 ih1 =>
      intro cs names' h
      rw [read_circuits_mapping_cons, if_neg hmem] at h
      cases hx : read_circuits_from_config_dict (child_sections entry) []
          (all_names ++ [cn]) with
      | error e =>
          rw [hx] at h
          exact Except.noConfusion h
      | ok pr =>
          obtain ⟨kids, names2⟩ := pr
          rw [hx] at h
          have h2 := ih2 kids names2 hx
          have h1 := ih1 (kids, names2) cs names' h
          rw [checked_names_mapping_cons, h1, h2]
          simp

theorem read_circuits_names_nodup :
    ∀ (secs : List (CircuitsDecl × Bool)) (acc : List ConfigCircuit)
      (all_names : List String) (cs : List ConfigCircuit)
      (names' : List String),
      all_names.Nodup →
      read_circuits_from_config_dict secs acc all_names = .ok (cs, names') →
      names'.Nodup := by
  intro secs acc all_names
  induction secs, acc, all_names using read_circuits_from_config_dict.induct with
  | case1 acc all_names =>
      intro cs names' hnd h
      rw [read_circuits_nil] at h
      injection h with h1
      injection h1 with hcs hnames
      rw [← hnames]
      exact hnd
  | case2 names o rest acc all_names ih1 =>
      intro cs names' hnd h
      rw [read_circuits_bare] at h
      exact ih1 cs names' hnd h
  | case3 o rest acc all_names ih1 =>
      intro cs names' hnd h
      rw [read_circuits_mapping_nil] at h
      exact ih1 cs names' hnd h
  | case4 cn entry more o rest acc all_names hmem =>
      intro cs names' _ h
      rw [read_circuits_mapping_cons, if_pos hmem] at h
      exact Except.noConfusion h
  | case5 cn entry more o rest acc all_names hmem ih2 ih1 =>
      intro cs names' hnd h
      rw [read_circuits_mapping_cons, if_neg hmem] at h
      cases hx : read_circuits_from_config_dict (child_sections entry) []
          (all_names ++ [cn]) with
      | error e =>
          rw [hx] at h
          exact Except.noConfusion h
      | ok pr =>
          obtain ⟨kids, names2⟩ := pr
          rw [hx] at h
          have hext : (all_names ++ [cn]).Nodup :=
            ((List.perm_append_singleton cn all_names).symm).nodup
              (List.nodup_cons.mpr ⟨hmem, hnd⟩)
          exact ih1 (kids, names2) cs names' (ih2 kids names2 hext hx) h

theorem config_init_names :
    ∀ (lcfg : List (String × LocationEntry)) (locs : List ConfigLocation)
      (all_names : List String) (r : List ConfigLocation × List String),
      config_init_locations lcfg locs all_names = .ok r →
      r.2 = all_names ++ checked_names_config lcfg ∧
      (all_names.Nodup → r.2.Nodup) := by
  intro lcfg
  induction lcfg with
  | nil =>
      intro locs names r h
      rw [config_init_locations] at h
      injection h with h1
      rw [← h1]
      exact ⟨by simp [checked_names_config], fun hnd => hnd⟩
  | cons hd tl ih =>
      obtain ⟨ln, le⟩ := hd
      intro locs names r h
      rw [config_init_locations] at h
      by_cases hmem : ln ∈ names
      · rw [if_pos hmem] at h
        exact Except.noConfusion h
      · rw [if_neg hmem] at h
        cases hr : read_circuits_from_config_dict (location_sections le) []
            (names ++ [ln]) with
        | error e =>
            rw [hr] at h
            exact Except.noConfusion h
        | ok pair =>
            obtain ⟨cs2, names2⟩ := pair
            rw [hr] at h
            have hacc := read_circuits_names_accum (location_sections le) []
              (names ++ [ln]) cs2 names2 hr
            have hrec := ih (locs ++ [⟨ln, cs2⟩]) names2 r h
            constructor
            · rw [hrec.1, hacc, checked_names_config]
              simp
            · intro hnd
              have hext : (names ++ [ln]).Nodup :=
                ((List.perm_append_singleton ln names).symm).nodup
                  (List.nodup_cons.mpr ⟨hmem, hnd⟩)
              exact hrec.2 (read_circuits_names_nodup (location_sections le)
                [] (names ++ [ln]) cs2 names2 hext hr)

/-- C1 amended: the loader's duplicate check covers exactly the location
names and the mapping-declared circuit names (at any nesting depth): any
configuration that loads successfully has all those checked names pairwise
distinct — equivalently, a repeated checked name makes the load fail.
Circuit names declared in bare name lists are never checked and can
duplicate any other name without the load failing, as the counterexample
shows. -/
theorem duplicate_check_covers_checked_names
    (locations : List (String × LocationEntry))
    (r : List ConfigLocation × List String)
    (h : config_load locations = .ok r) :
    (checked_names_config locations).Nodup := by
  have hboth := config_init_names locations [] [] r h
  have h2 := hboth.2 List.nodup_nil
  rw [hboth.1] at h2
  simpa using h2

/-- C1 amended witness: a configuration with location L holding the
mapping-declared circuit A loads successfully, and its checked names L, A
are pairwise distinct. -/
theorem duplicate_check_covers_checked_names_witness :
    (checked_names_config
      [("L", ⟨some (.mapping [("A", .mk none none none none none)]),
        none⟩)]).Nodup := by
  apply duplicate_check_covers_checked_names
    [("L", ⟨some (.mapping [("A", .mk none none none none none)]), none⟩)]
    ([⟨"L", [ConfigCircuit.mk "A" "A" none false none []]⟩], ["L", "A"])
  have hread : read_circuits_from_config_dict
      [(.mapping [("A", CircuitEntry.mk none none none none none)], false)] []
      (([] : List String) ++ ["L"])
      = .ok ([ConfigCircuit.mk "A" "A" none false none []], ["L", "A"]) := by
    rw [read_circuits_mapping_cons, if_neg (by decide)]
    rw [show child_sections (CircuitEntry.mk none none none none none)
        = [] from rfl, read_circuits_nil]
    show read_circuits_from_config_dict [(.mapping [], false)]
        (upsert_config_circuit []
          (ConfigCircuit.mk "A" "A" none false none []))
        ((([] : List String) ++ ["L"]) ++ ["A"]) = _
    rw [read_circuits_mapping_nil, read_circuits_nil]
    rfl
  show config_init_locations _ [] [] = _
  rw [config_init_locations]
  rw [if_neg (List.not_mem_nil "L")]
  rw [show location_sections
      (⟨some (.mapping [("A", CircuitEntry.mk none none none none none)]),
        none⟩ : LocationEntry)
      = [(.mapping [("A", CircuitEntry.mk none none none none none)],
          false)] from rfl]
  rw [hread]
  show config_init_locations []
      ([] ++ [⟨"L", [ConfigCircuit.mk "A" "A" none false none []]⟩])
      ["L", "A"] = _
  rw [config_init_locations]
  rfl

/-- C1 counterexample: a configuration whose location is named A and whose
bare-list circuit is also named A — two identically-named nodes in the global
namespace — loads successfully instead of failing with a duplicate-name
error: bare-list circuit names are never entered into the seen-names set. -/
theorem duplicate_name_not_detected_counterexample :
    config_load [("A", ⟨some (.bare_list ["A"]), none⟩)]
      = .ok ([⟨"A", [ConfigCircuit.mk "A" "A" none false none []]⟩],
          ["A"]) := by
  have hread : read_circuits_from_config_dict [(.bare_list ["A"], false)] []
      (([] : List String) ++ ["A"])
      = .ok ([ConfigCircuit.mk "A" "A" none false none []], ["A"]) := by
    rw [read_circuits_bare, read_circuits_nil]
    rfl
  show config_init_locations _ [] [] = _
  rw [config_init_locations]
  rw [if_neg (List.not_mem_nil "A")]
  rw [show location_sections (⟨some (.bare_list ["A"]), none⟩ : LocationEntry)
      = [(.bare_list ["A"], false)] from rfl]
  rw [hread]
  show config_init_locations []
      ([] ++ [⟨"A", [ConfigCircuit.mk "A" "A" none false none []]⟩])
      ["A"] = _
  rw [config_init_locations]
  rfl

/-! ### Counting lemmas for the resolver -/

theorem count_name_forest_append (l1 l2 : List Circuit) (m : String) :
    count_name_forest (l1 ++ l2) m
      = count_name_forest l1 m + count_name_forest l2 m := by
  induction l1 with
  | nil => rw [count_name_forest_nil, List.nil_append, Nat.zero_add]
  | cons c rest ih =>
      cases c with
      | mk n an gid ch o kids loc par dn lb rn =>
          rw [List.cons_append, count_name_forest_cons, count_name_forest_cons,
            ih]
          omega

theorem count_name_forest_childless (pool : List Circuit)
    (h : ∀ c ∈ pool, c.child_circuits = []) (m : String) :
    count_name_forest pool m = pool.countP (fun c => c.name == m) := by
  induction pool with
  | nil => rw [count_name_forest_nil, List.countP_nil]
  | cons c rest ih =>
      cases c with
      | mk n an gid ch o kids loc par dn lb rn =>
          have hk : kids = [] :=
            h (.mk n an gid ch o kids loc par dn lb rn) (List.mem_cons_self _ _)
          rw [count_name_forest_cons, hk, count_name_forest_nil,
            List.countP_cons,
            ih (fun c hc => h c (List.mem_cons_of_mem _ hc))]
          have hbeq : ((Circuit.mk n an gid ch o [] loc par dn lb rn).name == m)
              = (n == m) := rfl
          rw [hbeq]
          by_cases hn : n = m
          · rw [if_pos hn, if_pos (by rw [hn]; exact beq_self_eq_true m)]
            omega
          · rw [if_neg hn, if_neg (by simpa using hn)]
            omega

theorem countP_name_le_one (pool : List Circuit)
    (h : (pool.map Circuit.name).Nodup) (n : String) :
    pool.countP (fun c => c.name == n) ≤ 1 := by
  induction pool with
  | nil => simp
  | cons c rest ih =>
      rw [List.map_cons, List.nodup_cons] at h
      rw [List.countP_cons]
      by_cases hc : (c.name == n) = true
      · rw [if_pos hc]
        rw [beq_iff_eq] at hc
        have hzero : rest.countP (fun c2 => c2.name == n) = 0 := by
          rw [List.countP_eq_zero]
          intro c2 hc2 hn2
          rw [beq_iff_eq] at hn2
          exact h.1 (by
            rw [hc, ← hn2]
            exact List.mem_map_of_mem Circuit.name hc2)
        omega
      · rw [if_neg hc, Nat.add_zero]
        exact ih h.2

theorem countP_name_pos_of_mem (pool : List Circuit) (c : Circuit)
    (hc : c ∈ pool) : 1 ≤ pool.countP (fun c2 => c2.name == c.name) :=
  List.countP_pos_iff.mpr ⟨c, hc, beq_self_eq_true c.name⟩

theorem any_name_eq_false_of_count_zero (l : List Circuit) (m : String)
    (h : count_name_forest l m = 0) :
    l.any (fun c2 => c2.name == m) = false := by
  induction l with
  | nil => rfl
  | cons c rest ih =>
      cases c with
      | mk n an gid ch o kids loc par dn lb rn =>
          rw [count_name_forest_cons] at h
          rw [List.any_cons]
          have hn : ¬(n = m) := by
            intro he
            rw [if_pos he] at h
            omega
          have hrest : count_name_forest rest m = 0 := by omega
          rw [ih hrest]
          have hbeq : ((Circuit.mk n an gid ch o kids loc par dn lb rn).name
              == m) = false := by simpa using hn
          rw [hbeq]
          rfl

theorem upsert_circuit_append (pool : List Circuit) (c : Circuit)
    (h : pool.any (fun c2 => c2.name == c.name) = false) :
    upsert_circuit pool c = pool ++ [c] := by
  unfold upsert_circuit
  rw [h, if_neg Bool.false_ne_true]

theorem bind_config_name (c : Circuit) (cc : ConfigCircuit) (loc : String)
    (parent : Option String) (kids : List Circuit) :
    (c.bind_config cc loc parent kids).name = c.name := by
  cases c with
  | mk n an gid ch o k l p d la r => rfl

theorem count_name_forest_bind_config_cons (c : Circuit) (cc : ConfigCircuit)
    (loc : String) (parent : Option String) (kids : List Circuit)
    (rest : List Circuit) (m : String) :
    count_name_forest (c.bind_config cc loc parent kids :: rest) m
      = (if c.name = m then 1 else 0) + count_name_forest kids m
        + count_name_forest rest m := by
  cases c with
  | mk n an gid ch o k l p d la r =>
      cases cc with
      | mk ccn ccd ccl cco ccr cck =>
          rw [Circuit.bind_config, count_name_forest_cons]
          rfl

theorem find?_circuit_prop (pool : List Circuit) (n : String) (c : Circuit)
    (h : pool.find? (fun c2 => c2.name == n) = some c) :
    c ∈ pool ∧ (c.name == n) = true := by
  induction pool with
  | nil => exact absurd h (by simp)
  | cons a rest ih =>
      rw [List.find?_cons] at h
      cases hpa : (a.name == n) with
      | true =>
          rw [hpa] at h
          injection h with h1
          subst h1
          exact ⟨List.mem_cons_self _ _, hpa⟩
      | false =>
          rw [hpa] at h
          have hrest := ih h
          exact ⟨List.mem_cons_of_mem _ hrest.1, hrest.2⟩

theorem countP_split_found (pool : List Circuit) (n m : String) (c : Circuit)
    (hnd : (pool.map Circuit.name).Nodup)
    (hfind : pool.find? (fun c2 => c2.name == n) = some c) :
    pool.countP (fun c2 => c2.name == m)
      = (pool.filter (fun c2 => !(c2.name == n))).countP
          (fun c2 => c2.name == m)
        + (if n = m then 1 else 0) := by
  by_cases hm : n = m
  · subst hm
    rw [if_pos rfl]
    have h1 : pool.countP (fun c2 => c2.name == n) = 1 := by
      have hle := countP_name_le_one pool hnd n
      have hge : 1 ≤ pool.countP (fun c2 => c2.name == n) :=
        List.countP_pos_iff.mpr
          ⟨c, (find?_circuit_prop pool n c hfind).1,
            (find?_circuit_prop pool n c hfind).2⟩
      omega
    rw [h1]
    have h0 : (pool.filter (fun c2 => !(c2.name == n))).countP
        (fun c2 => c2.name == n) = 0 := by
      rw [List.countP_eq_zero]
      intro a ha hp
      have hmem := List.of_mem_filter ha
      rw [hp] at hmem
      simp at hmem
    rw [h0]
  · rw [if_neg hm, Nat.add_zero, List.countP_filter]
    apply List.countP_congr
    intro a _
    constructor
    · intro hp
      rw [hp]
      have hq : (a.name == n) = false := by
        rw [beq_iff_eq] at hp
        simp only [beq_eq_false_iff_ne]
        rw [hp]
        exact fun he => hm he.symm
      rw [hq]
      rfl
    · intro hp
      rw [Bool.and_eq_true] at hp
      exact hp.1

theorem populate_conservation :
    ∀ (ccs : List ConfigCircuit) (pool : List Circuit) (loc : String)
      (parent : Option String),
      (pool.map Circuit.name).Nodup →
      (∀ c ∈ pool, c.child_circuits = []) →
      (∀ m, count_name_forest
            (populate_circuits_recursive ccs pool loc parent).1 m
          + count_name_forest
            (populate_circuits_recursive ccs pool loc parent).2 m
        = count_name_forest pool m)
      ∧ (populate_circuits_recursive ccs pool loc parent).2.Sublist pool := by
  intro ccs pool loc parent
  induction ccs, pool, loc, parent using populate_circuits_recursive.induct with
  | case1 pool loc parent =>
      intro _ _
      constructor
      · intro m
        rw [populate_nil]
        show count_name_forest [] m + count_name_forest pool m
            = count_name_forest pool m
        rw [count_name_forest_nil]
        omega
      · rw [populate_nil]
  | case2 n dn lb o rn kids rest pool loc parent c hfind ihk ihr =>
      intro hnd hcl
      have hsub1 : List.Sublist (pool.filter (fun c2 => !(c2.name == n))) pool :=
        List.filter_sublist pool
      have hnd1 : ((pool.filter (fun c2 => !(c2.name == n))).map Circuit.name).Nodup :=
        hnd.sublist (hsub1.map Circuit.name)
      have hcl1 : ∀ c2 ∈ (pool.filter (fun c2 => !(c2.name == n))), c2.child_circuits = [] :=
        fun c2 hc => hcl c2 (hsub1.subset hc)
      have hK := ihk hnd1 hcl1
      have hsub2 : List.Sublist (populate_circuits_recursive kids (pool.filter (fun c2 => !(c2.name == n))) loc (some n)).2 (pool.filter (fun c2 => !(c2.name == n))) := hK.2
      have hnd2 : ((populate_circuits_recursive kids (pool.filter (fun c2 => !(c2.name == n))) loc (some n)).2.map Circuit.name).Nodup :=
        hnd1.sublist (hsub2.map Circuit.name)
      have hcl2 : ∀ c2 ∈ (populate_circuits_recursive kids (pool.filter (fun c2 => !(c2.name == n))) loc (some n)).2, c2.child_circuits = [] :=
        fun c2 hc => hcl1 c2 (hsub2.subset hc)
      have hR := ihr hnd2 hcl2
      have hcname : c.name = n := by
        have hp1 := (find?_circuit_prop pool n c hfind).2
        rwa [beq_iff_eq] at hp1
      have heq : populate_circuits_recursive
          (.mk n dn lb o rn kids :: rest) pool loc parent
          = (c.bind_config (.mk n dn lb o rn kids) loc parent (populate_circuits_recursive kids (pool.filter (fun c2 => !(c2.name == n))) loc (some n)).1
              :: (populate_circuits_recursive rest (populate_circuits_recursive kids (pool.filter (fun c2 => !(c2.name == n))) loc (some n)).2 loc parent).1,
             (populate_circuits_recursive rest (populate_circuits_recursive kids (pool.filter (fun c2 => !(c2.name == n))) loc (some n)).2 loc parent).2) := by
        rw [populate_cons, hfind]
      constructor
      · intro m
        rw [heq]
        show count_name_forest
            (c.bind_config (.mk n dn lb o rn kids) loc parent (populate_circuits_recursive kids (pool.filter (fun c2 => !(c2.name == n))) loc (some n)).1
              :: (populate_circuits_recursive rest (populate_circuits_recursive kids (pool.filter (fun c2 => !(c2.name == n))) loc (some n)).2 loc parent).1) m
            + count_name_forest (populate_circuits_recursive rest (populate_circuits_recursive kids (pool.filter (fun c2 => !(c2.name == n))) loc (some n)).2 loc parent).2 m
          = count_name_forest pool m
        rw [count_name_forest_bind_config_cons, hcname]
        have hKm := hK.1 m
        have hRm := hR.1 m
        have hsplit : count_name_forest pool m
            = count_name_forest (pool.filter (fun c2 => !(c2.name == n))) m
              + (if n = m then 1 else 0) := by
          rw [count_name_forest_childless pool hcl m,
            count_name_forest_childless (pool.filter (fun c2 => !(c2.name == n))) hcl1 m,
            countP_split_found pool n m c hnd hfind]
        omega
      · rw [heq]
        show List.Sublist (populate_circuits_recursive rest (populate_circuits_recursive kids (pool.filter (fun c2 => !(c2.name == n))) loc (some n)).2 loc parent).2 pool
        exact (hR.2.trans hsub2).trans hsub1
  | case3 n dn lb o rn kids rest pool loc parent hfind ih1 =>
      intro hnd hcl
      have heq : populate_circuits_recursive
          (.mk n dn lb o rn kids :: rest) pool loc parent
          = populate_circuits_recursive rest pool loc parent := by
        rw [populate_cons, hfind]
      rw [heq]
      exact ih1 hnd hcl

theorem count_name_locations_nil (m : String) :
    count_name_locations [] m = 0 := rfl

theorem count_name_locations_cons (l : Location) (rest : List Location)
    (m : String) :
    count_name_locations (l :: rest) m
      = count_name_forest l.circuits m + count_name_locations rest m := by
  simp [count_name_locations]

theorem count_name_locations_append (l1 l2 : List Location) (m : String) :
    count_name_locations (l1 ++ l2) m
      = count_name_locations l1 m + count_name_locations l2 m := by
  simp [count_name_locations]

theorem populate_all_conservation :
    ∀ (cls : List ConfigLocation) (pool : List Circuit),
      (pool.map Circuit.name).Nodup →
      (∀ c ∈ pool, c.child_circuits = []) →
      (∀ m, count_name_locations (populate_all cls pool).1 m
          + count_name_forest (populate_all cls pool).2 m
        = count_name_forest pool m)
      ∧ (populate_all cls pool).2.Sublist pool
      ∧ (populate_all cls pool).1.map Location.name
          = cls.map ConfigLocation.name := by
  intro cls
  induction cls with
  | nil =>
      intro pool hnd hcl
      refine ⟨fun m => ?_, ?_, ?_⟩
      · show count_name_locations [] m + count_name_forest pool m = _
        rw [count_name_locations_nil]
        omega
      · exact List.Sublist.refl pool
      · rfl
  | cons cl rest ih =>
      intro pool hnd hcl
      have hP := populate_conservation cl.circuits pool cl.name none hnd hcl
      have hsub1 : (populate_circuits_recursive cl.circuits pool cl.name
          none).2.Sublist pool := hP.2
      have hnd1 : ((populate_circuits_recursive cl.circuits pool cl.name
          none).2.map Circuit.name).Nodup :=
        hnd.sublist (hsub1.map Circuit.name)
      have hcl1 : ∀ c ∈ (populate_circuits_recursive cl.circuits pool cl.name
          none).2, c.child_circuits = [] :=
        fun c hc => hcl c (hsub1.subset hc)
      have hR := ih (populate_circuits_recursive cl.circuits pool cl.name
        none).2 hnd1 hcl1
      refine ⟨fun m => ?_, ?_, ?_⟩
      · show count_name_locations
            (⟨cl.name, (populate_circuits_recursive cl.circuits pool cl.name
              none).1⟩
              :: (populate_all rest (populate_circuits_recursive cl.circuits
                pool cl.name none).2).1) m
            + count_name_forest (populate_all rest
              (populate_circuits_recursive cl.circuits pool cl.name
                none).2).2 m
          = count_name_forest pool m
        rw [count_name_locations_cons]
        have h1 := hP.1 m
        have h2 := hR.1 m
        show count_name_forest (populate_circuits_recursive cl.circuits pool
            cl.name none).1 m + _ + _ = _
        omega
      · show List.Sublist (populate_all rest (populate_circuits_recursive
          cl.circuits pool cl.name none).2).2 pool
        exact hR.2.1.trans hsub1
      · show Location.name ⟨cl.name, _⟩ :: (populate_all rest
            (populate_circuits_recursive cl.circuits pool cl.name
              none).2).1.map Location.name
          = cl.name :: rest.map ConfigLocation.name
        rw [hR.2.2]

theorem set_location_name (c : Circuit) (loc : String) :
    (c.set_location loc).name = c.name := by
  cases c with
  | mk n an gid ch o kids l par dn lb rn => rfl

theorem set_location_children (c : Circuit) (loc : String) :
    (c.set_location loc).child_circuits = c.child_circuits := by
  cases c with
  | mk n an gid ch o kids l par dn lb rn => rfl

theorem count_name_forest_singleton_childless (c : Circuit)
    (h : c.child_circuits = []) (m : String) :
    count_name_forest [c] m = if c.name = m then 1 else 0 := by
  cases c with
  | mk n an gid ch o kids loc par dn lb rn =>
      have hk : kids = [] := h
      rw [count_name_forest_cons, hk, count_name_forest_nil]
      show (if n = m then 1 else 0) + 0 + 0 = if n = m then 1 else 0
      by_cases hnm : n = m
      · rw [if_pos hnm]
      · rw [if_neg hnm]

theorem map_name_update (ln : String) (c : Circuit) (locs : List Location) :
    (locs.map (fun l => if l.name == ln then
        (⟨l.name, upsert_circuit l.circuits c⟩ : Location) else l)).map
      Location.name = locs.map Location.name := by
  induction locs with
  | nil => rfl
  | cons L rest ih =>
      rw [List.map_cons, List.map_cons, List.map_cons, ih]
      by_cases h : (L.name == ln) = true
      · rw [if_pos h]
      · rw [if_neg h]

theorem add_circuit_names (locs : List Location) (ln : String) (c : Circuit) :
    (add_circuit_to_location locs ln c).map Location.name
      = if locs.any (fun l => l.name == ln) then locs.map Location.name
        else locs.map Location.name ++ [ln] := by
  unfold add_circuit_to_location
  by_cases h : locs.any (fun l => l.name == ln) = true
  · rw [if_pos h, if_pos h, map_name_update]
  · have hfalse : locs.any (fun l => l.name == ln) = false := by
      cases hx : locs.any (fun l => l.name == ln) with
      | true => exact absurd hx h
      | false => rfl
    rw [hfalse, if_neg Bool.false_ne_true, if_neg Bool.false_ne_true,
      map_name_update ln c (locs ++ [({ name := ln, circuits := [] } : Location)]), List.map_append]
    rfl

theorem add_circuit_nodup (locs : List Location) (ln : String) (c : Circuit)
    (hnd : (locs.map Location.name).Nodup) :
    ((add_circuit_to_location locs ln c).map Location.name).Nodup := by
  rw [add_circuit_names]
  by_cases h : locs.any (fun l => l.name == ln) = true
  · rw [if_pos h]
    exact hnd
  · have hfalse : locs.any (fun l => l.name == ln) = false := by
      cases hx : locs.any (fun l => l.name == ln) with
      | true => exact absurd hx h
      | false => rfl
    rw [hfalse, if_neg Bool.false_ne_true]
    have hnotin : ln ∉ locs.map Location.name := by
      intro hmem
      obtain ⟨l, hl, hname⟩ := List.mem_map.mp hmem
      have : locs.any (fun l => l.name == ln) = true :=
        List.any_eq_true.mpr ⟨l, hl, by rw [hname]; exact beq_self_eq_true ln⟩
      exact h this
    exact ((List.perm_append_singleton ln (locs.map Location.name)).symm).nodup
      (List.nodup_cons.mpr ⟨hnotin, hnd⟩)

theorem count_update_loc (ln : String) (c : Circuit) (m : String) :
    ∀ locs : List Location,
      (locs.map Location.name).Nodup →
      ln ∈ locs.map Location.name →
      count_name_locations locs c.name = 0 →
      count_name_locations
        (locs.map (fun l => if l.name == ln then
          (⟨l.name, upsert_circuit l.circuits c⟩ : Location) else l)) m
        = count_name_locations locs m + count_name_forest [c] m := by
  intro locs
  induction locs with
  | nil =>
      intro _ hmem _
      simp at hmem
  | cons L rest ih =>
      intro hnd hmem h0
      rw [List.map_cons, List.nodup_cons] at hnd
      rw [count_name_locations_cons] at h0
      rw [List.map_cons, count_name_locations_cons,
        count_name_locations_cons]
      by_cases hL : (L.name == ln) = true
      · rw [if_pos hL]
        have hany : L.circuits.any (fun c2 => c2.name == c.name) = false :=
          any_name_eq_false_of_count_zero _ _ (by omega)
        show count_name_forest (upsert_circuit L.circuits c) m + _ = _
        rw [upsert_circuit_append _ _ hany, count_name_forest_append]
        have hrestid : rest.map (fun l => if l.name == ln then
            (⟨l.name, upsert_circuit l.circuits c⟩ : Location) else l)
            = rest := by
          have hcongr := List.map_congr_left
            (f := fun l : Location => if l.name == ln then
              (⟨l.name, upsert_circuit l.circuits c⟩ : Location) else l)
            (g := id) (l := rest)
            (fun l hl => if_neg (by
              rw [beq_iff_eq] at hL ⊢
              intro he
              exact hnd.1 (by
                rw [hL, ← he]
                exact List.mem_map_of_mem Location.name hl)))
          rw [hcongr, List.map_id]
        rw [hrestid]
        omega
      · rw [if_neg hL]
        have hmem2 : ln ∈ rest.map Location.name := by
          rw [List.map_cons, List.mem_cons] at hmem
          rcases hmem with he | hr
          · exact absurd (by rw [he]; exact beq_self_eq_true L.name) hL
          · exact hr
        rw [ih hnd.2 hmem2 (by omega)]
        omega

theorem add_circuit_count (locs : List Location) (ln : String) (c : Circuit)
    (hnd : (locs.map Location.name).Nodup)
    (h0 : count_name_locations locs c.name = 0) (m : String) :
    count_name_locations (add_circuit_to_location locs ln c) m
      = count_name_locations locs m + count_name_forest [c] m := by
  by_cases h : locs.any (fun l => l.name == ln) = true
  · have hmem : ln ∈ locs.map Location.name := by
      obtain ⟨l, hl, hp⟩ := List.any_eq_true.mp h
      rw [beq_iff_eq] at hp
      exact hp ▸ List.mem_map_of_mem Location.name hl
    unfold add_circuit_to_location
    rw [if_pos h]
    exact count_update_loc ln c m locs hnd hmem h0
  · have hnotin : ln ∉ locs.map Location.name := by
      intro hmem
      obtain ⟨l, hl, hname⟩ := List.mem_map.mp hmem
      exact h (List.any_eq_true.mpr
        ⟨l, hl, by rw [hname]; exact beq_self_eq_true ln⟩)
    rw [add_circuit_new_location locs ln c hnotin,
      count_name_locations_append, count_name_locations_cons,
      count_name_locations_nil]
    show _ = _ + count_name_forest [c] m
    have : count_name_forest ((⟨ln, [c]⟩ : Location)).circuits m
        = count_name_forest [c] m := rfl
    omega

theorem place_defaults_count (accounts : List (String × AccountEntry)) :
    ∀ (remaining : List Circuit) (locs : List Location),
      (locs.map Location.name).Nodup →
      (∀ c ∈ remaining, c.child_circuits = []) →
      ((remaining.map Circuit.name).Nodup) →
      (∀ c ∈ remaining, count_name_locations locs c.name = 0) →
      ∀ m, count_name_locations
          (place_default_circuits accounts remaining locs) m
        = count_name_locations locs m + count_name_forest remaining m := by
  intro remaining
  induction remaining with
  | nil =>
      intro locs _ _ _ _ m
      show count_name_locations locs m = _
      rw [count_name_forest_nil]
      omega
  | cons c rest ih =>
      intro locs hndL hcl hndR h0 m
      have hc0 : count_name_locations locs
          (c.set_location (default_location_name accounts
            c.account_name)).name = 0 := by
        rw [set_location_name]
        exact h0 c (List.mem_cons_self c rest)
      have hstep : place_default_circuits accounts (c :: rest) locs
          = place_default_circuits accounts rest
              (add_circuit_to_location locs
                (default_location_name accounts c.account_name)
                (c.set_location
                  (default_location_name accounts c.account_name))) := rfl
      rw [hstep]
      have hndL2 := add_circuit_nodup locs
        (default_location_name accounts c.account_name)
        (c.set_location (default_location_name accounts c.account_name)) hndL
      have hclrest : ∀ c2 ∈ rest, c2.child_circuits = [] :=
        fun c2 hc2 => hcl c2 (List.mem_cons_of_mem c hc2)
      rw [List.map_cons, List.nodup_cons] at hndR
      have h0rest : ∀ c2 ∈ rest, count_name_locations
          (add_circuit_to_location locs
            (default_location_name accounts c.account_name)
            (c.set_location (default_location_name accounts c.account_name)))
          c2.name = 0 := by
        intro c2 hc2
        rw [add_circuit_count locs _ _ hndL hc0 c2.name]
        have hcsingle : count_name_forest
            [c.set_location (default_location_name accounts c.account_name)]
            c2.name = 0 := by
          rw [count_name_forest_singleton_childless _ (by
            rw [set_location_children]
            exact hcl c (List.mem_cons_self c rest)) c2.name,
            set_location_name]
          rw [if_neg (fun he => hndR.1 (by
            rw [he]
            exact List.mem_map_of_mem Circuit.name hc2))]
        rw [hcsingle, h0 c2 (List.mem_cons_of_mem c hc2)]
      rw [ih (add_circuit_to_location locs
          (default_location_name accounts c.account_name)
          (c.set_location (default_location_name accounts c.account_name)))
        hndL2 hclrest hndR.2 h0rest m]
      rw [add_circuit_count locs _ _ hndL hc0 m]
      have hchead : c.child_circuits = [] := hcl c (List.mem_cons_self c rest)
      have hcsing : count_name_forest
          [c.set_location (default_location_name accounts c.account_name)] m
          = if c.name = m then 1 else 0 := by
        rw [count_name_forest_singleton_childless _ (by
          rw [set_location_children]; exact hchead) m, set_location_name]
      have hcons : count_name_forest (c :: rest) m
          = (if c.name = m then 1 else 0) + count_name_forest rest m := by
        cases c with
        | mk n an gid ch o kids loc par dn lb rn =>
            have hk : kids = [] := hchead
            rw [count_name_forest_cons, hk, count_name_forest_nil]
            show (if n = m then 1 else 0) + 0 + count_name_forest rest m
                = (if n = m then 1 else 0) + count_name_forest rest m
            omega
      omega

theorem foldl_upsert_eq_append :
    ∀ (cs acc : List Circuit), ((acc ++ cs).map Circuit.name).Nodup →
      cs.foldl upsert_circuit acc = acc ++ cs := by
  intro cs
  induction cs with
  | nil =>
      intro acc _
      rw [List.foldl_nil, List.append_nil]
  | cons c rest ih =>
      intro acc hnd
      rw [List.map_append] at hnd
      have hdisj := (List.nodup_append.mp hnd).2.2
      have hany : acc.any (fun c2 => c2.name == c.name) = false := by
        rw [List.any_eq_false]
        intro c2 hc2 hbeq
        rw [beq_iff_eq] at hbeq
        exact hdisj (hbeq ▸ List.mem_map_of_mem Circuit.name hc2)
          (List.mem_map_of_mem Circuit.name (List.mem_cons_self c rest))
      rw [List.foldl_cons, upsert_circuit_append acc c hany]
      have hnd2 : (((acc ++ [c]) ++ rest).map Circuit.name).Nodup := by
        rw [List.append_assoc, List.singleton_append, List.map_append]
        exact hnd
      rw [ih (acc ++ [c]) hnd2, List.append_assoc, List.singleton_append]

theorem circuits_to_add_eq_discovered
    (accounts : List (String × AccountEntry))
    (get_devices : String → List VueDevice)
    (hnd : (discovered_names accounts get_devices).Nodup) :
    circuits_to_add_init accounts get_devices
      = discovered_circuits accounts get_devices := by
  unfold circuits_to_add_init
  exact foldl_upsert_eq_append (discovered_circuits accounts get_devices) []
    (by
      rw [List.nil_append]
      exact hnd)

theorem device_circuits_childless (an : String) (dev : VueDevice) :
    ∀ c ∈ device_circuits an dev, c.child_circuits = [] := by
  intro c hc
  unfold device_circuits at hc
  cases hch : dev.channels with
  | nil =>
      rw [hch] at hc
      simp at hc
  | cons ch1 chs =>
      cases hchs : chs with
      | nil =>
          rw [hch, hchs] at hc
          rw [List.mem_singleton] at hc
          rw [hc]
          rfl
      | cons ch2 chs2 =>
          rw [hch, hchs] at hc
          rw [List.mem_map] at hc
          obtain ⟨ch, _, hceq⟩ := hc
          rw [← hceq]
          rfl

theorem discovered_circuits_childless
    (accounts : List (String × AccountEntry))
    (get_devices : String → List VueDevice) :
    ∀ c ∈ discovered_circuits accounts get_devices,
      c.child_circuits = [] := by
  intro c hc
  unfold discovered_circuits at hc
  rw [List.mem_flatMap] at hc
  obtain ⟨a, _, hc2⟩ := hc
  rw [List.mem_flatMap] at hc2
  obtain ⟨dev, _, hc3⟩ := hc2
  exact device_circuits_childless a.fst dev c hc3

/-- C7 amended: provided the discovered circuit names are pairwise distinct
(the circuits_to_add dict silently drops a discovered channel whose name
collides with an earlier one, as the counterexample shows) and the configured
location names are distinct (the loader guarantees this), every discovered
channel's circuit occupies exactly one position in the final
Location/Circuit structure: bound at its configured position or placed
top-level in its account's default location, never twice and never
absent. -/
theorem each_discovered_channel_exactly_once (config : Config)
    (get_devices : String → List VueDevice)
    (hcfg : (config.locations.map ConfigLocation.name).Nodup)
    (hnd : (discovered_names config.accounts get_devices).Nodup) :
    ∀ n ∈ discovered_names config.accounts get_devices,
      count_name_locations
        (do_logins_and_build_circuits config get_devices
          ⟨none, none, [], []⟩).location_list n = 1 := by
  intro n hn
  have hloc : (do_logins_and_build_circuits config get_devices
      ⟨none, none, [], []⟩).location_list
      = place_default_circuits config.accounts
          (populate_all config.locations
            (circuits_to_add_init config.accounts get_devices)).2
          (populate_all config.locations
            (circuits_to_add_init config.accounts get_devices)).1 := rfl
  have hpool : circuits_to_add_init config.accounts get_devices
      = (discovered_circuits config.accounts get_devices) :=
    circuits_to_add_eq_discovered config.accounts get_devices hnd
  rw [hloc, hpool]
  have hDnd : ((discovered_circuits config.accounts get_devices).map Circuit.name).Nodup := hnd
  have hDcl := discovered_circuits_childless config.accounts get_devices
  have hPA := populate_all_conservation config.locations (discovered_circuits config.accounts get_devices) hDnd hDcl
  have hn2 : n ∈ (discovered_circuits config.accounts get_devices).map Circuit.name := hn
  obtain ⟨c, hcmem, hcname⟩ := List.mem_map.mp hn2
  have hcount_pool : count_name_forest (discovered_circuits config.accounts get_devices) n = 1 := by
    rw [count_name_forest_childless (discovered_circuits config.accounts get_devices) hDcl n]
    have hle := countP_name_le_one (discovered_circuits config.accounts get_devices) hDnd n
    have hge : 1 ≤ (discovered_circuits config.accounts get_devices).countP (fun c2 => c2.name == n) :=
      List.countP_pos_iff.mpr
        ⟨c, hcmem, by rw [hcname]; exact beq_self_eq_true n⟩
    omega
  have hsub : (populate_all config.locations (discovered_circuits config.accounts get_devices)).2.Sublist (discovered_circuits config.accounts get_devices) := hPA.2.1
  have hnd1 : ((populate_all config.locations (discovered_circuits config.accounts get_devices)).2.map Circuit.name).Nodup :=
    hDnd.sublist (hsub.map Circuit.name)
  have hcl1 : ∀ c2 ∈ (populate_all config.locations (discovered_circuits config.accounts get_devices)).2, c2.child_circuits = [] :=
    fun c2 hc => hDcl c2 (hsub.subset hc)
  have hndL : ((populate_all config.locations (discovered_circuits config.accounts get_devices)).1.map Location.name).Nodup := by
    rw [hPA.2.2]
    exact hcfg
  have h0 : ∀ c2 ∈ (populate_all config.locations (discovered_circuits config.accounts get_devices)).2,
      count_name_locations (populate_all config.locations (discovered_circuits config.accounts get_devices)).1 c2.name = 0 := by
    intro c2 hc2
    have hcons := hPA.1 c2.name
    have hpos : 1 ≤ count_name_forest (populate_all config.locations (discovered_circuits config.accounts get_devices)).2 c2.name := by
      rw [count_name_forest_childless (populate_all config.locations (discovered_circuits config.accounts get_devices)).2 hcl1 c2.name]
      exact List.countP_pos_iff.mpr ⟨c2, hc2, beq_self_eq_true c2.name⟩
    have hub : count_name_forest (discovered_circuits config.accounts get_devices) c2.name ≤ 1 := by
      rw [count_name_forest_childless (discovered_circuits config.accounts get_devices) hDcl c2.name]
      exact countP_name_le_one (discovered_circuits config.accounts get_devices) hDnd c2.name
    omega
  rw [place_defaults_count config.accounts (populate_all config.locations (discovered_circuits config.accounts get_devices)).2 (populate_all config.locations (discovered_circuits config.accounts get_devices)).1 hndL hcl1 hnd1 h0 n]
  have hfinal := hPA.1 n
  omega

/-- C7 amended witness: one configured location Garage with circuit Freezer
and one discovered single-channel device Freezer: the discovered channel's
circuit occupies exactly one position in the final structure. -/
theorem each_discovered_channel_exactly_once_witness :
    count_name_locations
      (do_logins_and_build_circuits
        ⟨[⟨"Garage", [ConfigCircuit.mk "Freezer" "Freezer" none true none []]⟩],
         [("acct", ⟨"e", "p", none⟩)]⟩
        (fun a => if a = "acct" then
          [⟨"g1", "Freezer", true, [⟨"1", "Freezer"⟩]⟩] else [])
        ⟨none, none, [], []⟩).location_list "Freezer" = 1 :=
  each_discovered_channel_exactly_once
    ⟨[⟨"Garage", [ConfigCircuit.mk "Freezer" "Freezer" none true none []]⟩],
     [("acct", ⟨"e", "p", none⟩)]⟩
    (fun a => if a = "acct" then
      [⟨"g1", "Freezer", true, [⟨"1", "Freezer"⟩]⟩] else [])
    (by decide) (by decide) "Freezer" (by decide)

/-- C7 counterexample: two discovered single-channel devices share the name A
(device gids g1 and g2); the circuits_to_add dict keeps only the later one,
so the channel of device g1 is represented nowhere in the final structure —
it is absent, not placed exactly once. -/
theorem discovered_channel_lost_counterexample :
    count_key_locations
      (do_logins_and_build_circuits ⟨[], [("acct", ⟨"e", "p", none⟩)]⟩
        (fun _ => [⟨"g1", "A", false, [⟨"1", "A"⟩]⟩,
                   ⟨"g2", "A", false, [⟨"1", "A"⟩]⟩])
        ⟨none, none, [], []⟩).location_list ("g1", "1") = 0 ∧
    count_key_locations
      (do_logins_and_build_circuits ⟨[], [("acct", ⟨"e", "p", none⟩)]⟩
        (fun _ => [⟨"g1", "A", false, [⟨"1", "A"⟩]⟩,
                   ⟨"g2", "A", false, [⟨"1", "A"⟩]⟩])
        ⟨none, none, [], []⟩).location_list ("g2", "1") = 1 := by
  have hloc : (do_logins_and_build_circuits ⟨[], [("acct", ⟨"e", "p", none⟩)]⟩
      (fun _ => [⟨"g1", "A", false, [⟨"1", "A"⟩]⟩,
                 ⟨"g2", "A", false, [⟨"1", "A"⟩]⟩])
      ⟨none, none, [], []⟩).location_list
      = [⟨"acct", [Circuit.mk "A" "acct" "g2" "1" false [] (some "acct") none
          none none none]⟩] := rfl
  constructor
  · rw [hloc]
    show count_key_forest [Circuit.mk "A" "acct" "g2" "1" false []
        (some "acct") none none none none] ("g1", "1") + 0 = 0
    rw [count_key_forest_cons, count_key_forest_nil]
    decide
  · rw [hloc]
    show count_key_forest [Circuit.mk "A" "acct" "g2" "1" false []
        (some "acct") none none none none] ("g2", "1") + 0 = 1
    rw [count_key_forest_cons, count_key_forest_nil]
    decide

/-! ### C8: duplicate config positions never duplicate a circuit -/

/-- C8 amended: when the same circuit name appears at more than one position
of the config tree, resolution does not raise: _populate_circuits_recursive
binds the discovered circuit at the first-encountered position, removes it
from the pool, and skips every later occurrence with a non-fatal warning —
the circuit therefore occupies at most one position of the output (and
exactly one when it is discovered, per the conservation of the pool), and is
never duplicated. -/
theorem duplicate_config_position_bound (ccs : List ConfigCircuit)
    (pool : List Circuit) (loc : String) (parent : Option String)
    (hnd : (pool.map Circuit.name).Nodup)
    (hcl : ∀ c ∈ pool, c.child_circuits = []) (m : String) :
    count_name_forest (populate_circuits_recursive ccs pool loc parent).1 m
      ≤ 1 := by
  have h := populate_conservation ccs pool loc parent hnd hcl
  have hub : count_name_forest pool m ≤ 1 := by
    rw [count_name_forest_childless pool hcl m]
    exact countP_name_le_one pool hnd m
  have hc := h.1 m
  omega

/-- C8 amended witness: a config forest naming A under parent P and again
under parent Q, with P, Q and A all discovered, yields at most one bound
occurrence of A. -/
theorem duplicate_config_position_bound_witness :
    count_name_forest
      (populate_circuits_recursive [ConfigCircuit.mk "P" "P" none false none [ConfigCircuit.mk "A" "A" none false none []], ConfigCircuit.mk "Q" "Q" none false none [ConfigCircuit.mk "A" "A" none false none []]]
        [Circuit.mk "P" "acct" "g1" "1" false [] none none none none none, Circuit.mk "Q" "acct" "g2" "1" false [] none none none none none, Circuit.mk "A" "acct" "g3" "1" false [] none none none none none] "L" none).1 "A" ≤ 1 :=
  duplicate_config_position_bound [ConfigCircuit.mk "P" "P" none false none [ConfigCircuit.mk "A" "A" none false none []], ConfigCircuit.mk "Q" "Q" none false none [ConfigCircuit.mk "A" "A" none false none []]]
    [Circuit.mk "P" "acct" "g1" "1" false [] none none none none none, Circuit.mk "Q" "acct" "g2" "1" false [] none none none none none, Circuit.mk "A" "acct" "g3" "1" false [] none none none none none] "L" none (by decide)
    (by intro c hc; fin_cases hc <;> rfl) "A"

/-- C8 counterexample: the circuit name A appears at two config positions
(under P and under Q) and a discovered circuit bears that name; resolution
completes normally (no error is raised — the function is total, the code has
no raise on this path) and silently binds A under P only, dropping the
occurrence under Q with a warning: the final forest holds exactly one A. -/
theorem duplicate_config_position_counterexample :
    count_name_forest
      (populate_circuits_recursive [ConfigCircuit.mk "P" "P" none false none [ConfigCircuit.mk "A" "A" none false none []], ConfigCircuit.mk "Q" "Q" none false none [ConfigCircuit.mk "A" "A" none false none []]]
        [Circuit.mk "P" "acct" "g1" "1" false [] none none none none none, Circuit.mk "Q" "acct" "g2" "1" false [] none none none none none, Circuit.mk "A" "acct" "g3" "1" false [] none none none none none] "L" none).1 "A" = 1 := by
  have eK1 : populate_circuits_recursive [ConfigCircuit.mk "A" "A" none false none []]
      [Circuit.mk "Q" "acct" "g2" "1" false [] none none none none none, Circuit.mk "A" "acct" "g3" "1" false [] none none none none none] "L" (some "P")
      = ([Circuit.mk "A" "acct" "g3" "1" false [] (some "L") (some "P") (some "A") none none], [Circuit.mk "Q" "acct" "g2" "1" false [] none none none none none]) := by
    rw [populate_cons]
    simp only [populate_nil]
    rfl
  have eR1 : populate_circuits_recursive [ConfigCircuit.mk "Q" "Q" none false none [ConfigCircuit.mk "A" "A" none false none []]]
      [Circuit.mk "Q" "acct" "g2" "1" false [] none none none none none] "L" none
      = ([Circuit.mk "Q" "acct" "g2" "1" false [] (some "L") none (some "Q") none none], []) := by
    rw [populate_cons, populate_cons]
    simp only [populate_nil]
    rfl
  have eC0 : populate_circuits_recursive [ConfigCircuit.mk "P" "P" none false none [ConfigCircuit.mk "A" "A" none false none []], ConfigCircuit.mk "Q" "Q" none false none [ConfigCircuit.mk "A" "A" none false none []]]
      [Circuit.mk "P" "acct" "g1" "1" false [] none none none none none, Circuit.mk "Q" "acct" "g2" "1" false [] none none none none none, Circuit.mk "A" "acct" "g3" "1" false [] none none none none none] "L" none
      = ([Circuit.mk "P" "acct" "g1" "1" false [Circuit.mk "A" "acct" "g3" "1" false [] (some "L") (some "P") (some "A") none none] (some "L") none (some "P") none none, Circuit.mk "Q" "acct" "g2" "1" false [] (some "L") none (some "Q") none none], []) := by
    rw [populate_cons]
    show ((Circuit.mk "P" "acct" "g1" "1" false [] none none none none none).bind_config (ConfigCircuit.mk "P" "P" none false none [ConfigCircuit.mk "A" "A" none false none []]) "L" none
          (populate_circuits_recursive [ConfigCircuit.mk "A" "A" none false none []] [Circuit.mk "Q" "acct" "g2" "1" false [] none none none none none, Circuit.mk "A" "acct" "g3" "1" false [] none none none none none] "L"
            (some "P")).1
        :: (populate_circuits_recursive [ConfigCircuit.mk "Q" "Q" none false none [ConfigCircuit.mk "A" "A" none false none []]]
            (populate_circuits_recursive [ConfigCircuit.mk "A" "A" none false none []] [Circuit.mk "Q" "acct" "g2" "1" false [] none none none none none, Circuit.mk "A" "acct" "g3" "1" false [] none none none none none] "L"
              (some "P")).2 "L" none).1,
        (populate_circuits_recursive [ConfigCircuit.mk "Q" "Q" none false none [ConfigCircuit.mk "A" "A" none false none []]]
          (populate_circuits_recursive [ConfigCircuit.mk "A" "A" none false none []] [Circuit.mk "Q" "acct" "g2" "1" false [] none none none none none, Circuit.mk "A" "acct" "g3" "1" false [] none none none none none] "L"
            (some "P")).2 "L" none).2) = _
    rw [eK1]
    show ((Circuit.mk "P" "acct" "g1" "1" false [] none none none none none).bind_config (ConfigCircuit.mk "P" "P" none false none [ConfigCircuit.mk "A" "A" none false none []]) "L" none [Circuit.mk "A" "acct" "g3" "1" false [] (some "L") (some "P") (some "A") none none]
        :: (populate_circuits_recursive [ConfigCircuit.mk "Q" "Q" none false none [ConfigCircuit.mk "A" "A" none false none []]] [Circuit.mk "Q" "acct" "g2" "1" false [] none none none none none] "L" none).1,
        (populate_circuits_recursive [ConfigCircuit.mk "Q" "Q" none false none [ConfigCircuit.mk "A" "A" none false none []]] [Circuit.mk "Q" "acct" "g2" "1" false [] none none none none none] "L" none).2) = _
    rw [eR1]
    rfl
  rw [eC0]
  show count_name_forest [Circuit.mk "P" "acct" "g1" "1" false [Circuit.mk "A" "acct" "g3" "1" false [] (some "L") (some "P") (some "A") none none] (some "L") none (some "P") none none, Circuit.mk "Q" "acct" "g2" "1" false [] (some "L") none (some "Q") none none] "A" = 1
  simp only [count_name_forest_cons, count_name_forest_nil]
  decide

end VueImporter
